import Mathlib

/-!
Verification development for the hxtk/aip query library (Go).

The Go code operates generically over protocol-buffer messages through the
protoreflect runtime-reflection interface.  We shallow-embed that data model:
a schema is an environment of message descriptors (lists of field
descriptors), and a runtime record is a tagged tree value aligned
positionally with its descriptor.  Machine integers are modelled as
unbounded Int/Nat: none of the verified properties depend on overflow, and
the Go comparison code only uses the native orderings of int32, int64,
uint32, uint64, string and bool.

Go functions that can panic are modelled with an explicit GoResult type
whose panicked constructor records that the Go original would abort;
functions returning (T, error) are modelled with Except or GoResult.
-/

namespace Aip

/-- Field kinds of the modelled protobuf universe.  kMsg carries the index of
the message descriptor of the field in the schema environment. -/
inductive Kind where
  | kInt32
  | kInt64
  | kUInt32
  | kUInt64
  | kBool
  | kString
  | kMsg (idx : Nat)
deriving DecidableEq, Repr

/-- Field cardinality.  In protoreflect both list and map fields report
Cardinality() == Repeated; map fields carry the key kind. -/
inductive Card where
  | singular
  | list
  | mapped (keyKind : Kind)
deriving DecidableEq, Repr

/-- One field descriptor: name, cardinality and kind.  For a map field the
kind field is the kind of the map VALUE and the key kind sits in the
cardinality. -/
structure FieldDescr where
  name : String
  card : Card
  kind : Kind
deriving DecidableEq, Repr

/-- A message descriptor is its ordered field list. -/
def MessageDescr := List FieldDescr

/-- A schema environment: message descriptors addressed by index. -/
def Env := List MessageDescr

/-- Runtime record values (the protoreflect value universe).  A message
stores one value per descriptor field, positionally.  pNoMsg models an
unset singular message field (an invalid protoreflect.Message). -/
inductive Pv where
  | pInt32 (n : Int)
  | pInt64 (n : Int)
  | pUInt32 (n : Nat)
  | pUInt64 (n : Nat)
  | pBool (b : Bool)
  | pString (s : String)
  | pMsg (fields : List Pv)
  | pNoMsg
  | pList (elems : List Pv)
  | pMap (entries : List (Pv × Pv))

/-- Result of running a Go computation: a value, an error (Go error return),
or a runtime panic. -/
inductive GoResult (α : Type) where
  | ok (a : α)
  | err (e : String)
  | panicked (msg : String)
deriving DecidableEq, Repr

namespace GoResult

def isOk {α : Type} : GoResult α → Bool
  | .ok _ => true
  | _ => false

end GoResult

/-! ### String primitives

The Go code uses strings.ToLower, strings.Contains, strings.Compare and
the native string ordering.  They are modelled here by explicit
list-of-character programs (the built-in Lean string functions are not
kernel-computable); case mapping is modelled on the ASCII range, which
covers every text the repository exercises. -/

/-- ASCII lower-casing of one character (models strings.ToLower). -/
def lowerChar (c : Char) : Char :=
  if 65 ≤ c.toNat && c.toNat ≤ 90 then Char.ofNat (c.toNat + 32) else c

/-- strings.ToLower. -/
def strLower (s : String) : String := ⟨s.data.map lowerChar⟩

/-- Whether the first list is a prefix of the second. -/
def listStartsWith : List Char → List Char → Bool
  | [], _ => true
  | _ :: _, [] => false
  | n :: ns, h :: hs => n == h && listStartsWith ns hs

/-- Whether the first list occurs as a contiguous sublist of the second. -/
def listInfix (needle : List Char) : List Char → Bool
  | [] => needle.isEmpty
  | h :: t => listStartsWith needle (h :: t) || listInfix needle t

/-- strings.Contains: the needle occurs as a substring of the haystack. -/
def strContainsSubstr (hay needle : String) : Bool := listInfix needle.data hay.data

/-- Lexicographic strict order on character lists. -/
def listCharLt : List Char → List Char → Bool
  | [], [] => false
  | [], _ :: _ => true
  | _ :: _, [] => false
  | a :: as, b :: bs => a < b || (a == b && listCharLt as bs)

/-- The Go string order (byte-wise lexicographic, which agrees with
codepoint-wise lexicographic for UTF-8). -/
def strLt (a b : String) : Bool := listCharLt a.data b.data

/-- Descriptor lookup by index in the environment (Fields() of a message). -/
def envDescr (env : Env) (i : Nat) : MessageDescr := env.getD i []

/-- Fields().ByName, returning the positional index together with the
descriptor. -/
def fieldByName : MessageDescr → String → Option (Nat × FieldDescr)
  | [], _ => none
  | fd :: rest, n =>
    if fd.name = n then some (0, fd)
    else (fieldByName rest n).map (fun p => (p.1 + 1, p.2))

/-- Whether Cardinality() == Repeated (true for list and map fields). -/
def isRepeatedCardinality : Card → Bool
  | .singular => false
  | .list => true
  | .mapped _ => true

/-- Whether fd.Message() is non-nil.  True for singular/repeated message
fields and for every map field (whose Kind is MessageKind via the synthetic
entry message). -/
def fdHasMessage (fd : FieldDescr) : Bool :=
  match fd.card with
  | .mapped _ => true
  | _ =>
    match fd.kind with
    | .kMsg _ => true
    | _ => false

/-- The index fd.Message() points at, for singular and repeated message
fields. -/
def fdMessageIdx (fd : FieldDescr) : Option Nat :=
  match fd.kind with
  | .kMsg j => some j
  | _ => none

/-- Zero (default) value of a field, as protoreflect Get returns for an
absent field: zero scalar, invalid message, empty list, empty map. -/
def zeroField (fd : FieldDescr) : Pv :=
  match fd.card with
  | .list => .pList []
  | .mapped _ => .pMap []
  | .singular =>
    match fd.kind with
    | .kInt32 => .pInt32 0
    | .kInt64 => .pInt64 0
    | .kUInt32 => .pUInt32 0
    | .kUInt64 => .pUInt64 0
    | .kBool => .pBool false
    | .kString => .pString ""
    | .kMsg _ => .pNoMsg

/-- A fresh zero message of the descriptor at index i (m.New()). -/
def zeroMsg (env : Env) (i : Nat) : Pv :=
  .pMsg ((envDescr env i).map zeroField)

/-- m.Get(fd): the stored slot when the receiver is a present message, and
the default value otherwise (Get on an invalid message yields defaults). -/
def msgGet (m : Pv) (idx : Nat) (fd : FieldDescr) : Pv :=
  match m with
  | .pMsg fields => fields.getD idx (zeroField fd)
  | _ => zeroField fd

/-- m.Has(fd), used by the Go code only on message, list and map fields:
presence for singular messages, non-emptiness for lists and maps. -/
def msgHas (m : Pv) (idx : Nat) (fd : FieldDescr) : Bool :=
  match msgGet m idx fd with
  | .pNoMsg => false
  | .pList [] => false
  | .pMap [] => false
  | _ => true

/-- m.Set(fd, v) on a present message: overwrite the slot. -/
def msgSet (m : Pv) (idx : Nat) (v : Pv) : Pv :=
  match m with
  | .pMsg fields => .pMsg (fields.set idx v)
  | other => other

/-- validateFieldPath walks the descriptor to make sure segments are valid.
Faithful to the source, including the detail that the current descriptor is
only advanced when the field has a message type (a scalar segment leaves
the descriptor unchanged for the following segment lookups). -/
def validateFieldPath (env : Env) : Nat → List String → Except String Unit
  | _, [] => .ok ()
  | di, seg :: rest =>
    match fieldByName (envDescr env di) seg with
    | none => .error ("field " ++ seg ++ " not found")
    | some (_, fd) =>
      if isRepeatedCardinality fd.card then
        .error ("cannot sort on repeated field " ++ seg)
      else
        match fd.kind with
        | .kMsg j => validateFieldPath env j rest
        | _ => validateFieldPath env di rest

/-- getFieldPathValue walks down nested fields along segments, mirroring the
source: an empty segment list is an error, the value of the final segment is
returned as-is, descending requires fd.Message() non-nil and m.Has(fd), and
calling Value.Message() on a list or map value panics. -/
def getFieldPathValue (env : Env) : Nat → Pv → List String → GoResult Pv
  | _, _, [] => .err "empty segments"
  | di, m, seg :: rest =>
    match fieldByName (envDescr env di) seg with
    | none => .err ("field " ++ seg ++ " not found")
    | some (idx, fd) =>
      let val := msgGet m idx fd
      if rest.isEmpty then .ok val
      else
        if fdHasMessage fd && msgHas m idx fd then
          match fd.card with
          | .singular =>
            match fd.kind with
            | .kMsg j => getFieldPathValue env j val rest
            | _ => .panicked "value is not a message"
          | _ => .panicked "value is not a message"
        else .err ("field " ++ seg ++ " is not a message")

/-- compareValues performs an ordering comparison between two protoreflect
values, exactly as the source: a type switch on the first value, an
unchecked type assertion on the second (whose failure is a Go panic), a
nil case that returns -1 when only the right side is non-nil and 1
otherwise (also when BOTH are nil), and a panic on every unhandled type.
The inputs are Option Pv because the callers feed in the Interface() of a
possibly-invalid Value, which is nil on resolution failure. -/
def compareValues : Option Pv → Option Pv → GoResult Int
  | none, some _ => .ok (-1)
  | none, none => .ok 1
  | some a, b =>
    match a with
    | .pInt32 n =>
      match b with
      | some (.pInt32 m) => .ok (if n < m then -1 else if m < n then 1 else 0)
      | _ => .panicked "interface conversion to int32"
    | .pInt64 n =>
      match b with
      | some (.pInt64 m) => .ok (if n < m then -1 else if m < n then 1 else 0)
      | _ => .panicked "interface conversion to int64"
    | .pUInt32 n =>
      match b with
      | some (.pUInt32 m) => .ok (if n < m then -1 else if m < n then 1 else 0)
      | _ => .panicked "interface conversion to uint32"
    | .pUInt64 n =>
      match b with
      | some (.pUInt64 m) => .ok (if n < m then -1 else if m < n then 1 else 0)
      | _ => .panicked "interface conversion to uint64"
    | .pString s =>
      match b with
      | some (.pString t) => .ok (if strLt s t then -1 else if strLt t s then 1 else 0)
      | _ => .panicked "interface conversion to string"
    | .pBool x =>
      match b with
      | some (.pBool y) =>
        .ok (if x = y then 0 else if !x && y then -1 else 1)
      | _ => .panicked "interface conversion to bool"
    | _ => .panicked "unsupported type in compareValues"

/-- Field paths as the query package stores them: the parsed segments plus
the canonical dotted text.  Modelled from the spec: the FieldPath type and
its constructors are not part of the provided sources, only their segments
and canonical fields are consumed there. -/
structure FieldPath where
  segments : List String
  canonical : String
deriving DecidableEq, Repr

/-- One order-by key. Modelled from the spec: an ordered field path plus a
descending flag, as consumed by the sources. -/
structure OrderBy where
  fieldPath : FieldPath
  descending : Bool
deriving DecidableEq, Repr

/-- Validation loop shared by Comparer and both Less variants: validate
every key path against the descriptor of the target type. -/
def validateOrder (env : Env) (di : Nat) : List OrderBy → Except String Unit
  | [] => .ok ()
  | ob :: rest =>
    match validateFieldPath env di ob.fieldPath.segments with
    | .error e => .error ("invalid orderBy field " ++ ob.fieldPath.canonical ++ ": " ++ e)
    | .ok () => validateOrder env di rest

/-- The av, _ := getFieldPathValue(...) pattern: the error is discarded and
an invalid Value (whose Interface() is nil) is used; a panic propagates. -/
def resolveOrNil (r : GoResult Pv) : GoResult (Option Pv) :=
  match r with
  | .ok v => .ok (some v)
  | .err _ => .ok none
  | .panicked p => .panicked p

/-- The body of the closure returned by Comparer: walk the keys in order,
resolve both sides discarding errors, three-way compare, negate for a
descending key, return the first non-zero result, 0 when all keys tie. -/
def comparerRun (env : Env) (di : Nat) : List OrderBy → Pv → Pv → GoResult Int
  | [], _, _ => .ok 0
  | ob :: rest, a, b =>
    match resolveOrNil (getFieldPathValue env di a ob.fieldPath.segments) with
    | .panicked p => .panicked p
    | .err e => .err e
    | .ok av =>
      match resolveOrNil (getFieldPathValue env di b ob.fieldPath.segments) with
      | .panicked p => .panicked p
      | .err e => .err e
      | .ok bv =>
        match compareValues av bv with
        | .panicked p => .panicked p
        | .err e => .err e
        | .ok cmp =>
          if cmp = 0 then comparerRun env di rest a b
          else if ob.descending then .ok (-cmp)
          else .ok cmp

/-- Comparer returns a comparator function for proto messages based on
orderBy (source file defining Comparer and the comparator-based Less). -/
def Comparer (env : Env) (di : Nat) (orderBy : List OrderBy) :
    Except String (Pv → Pv → GoResult Int) :=
  match validateOrder env di orderBy with
  | .error e => .error e
  | .ok () => .ok (fun a b => comparerRun env di orderBy a b)

/-- Less built on Comparer: a < b iff the comparator is negative. -/
def Less (env : Env) (di : Nat) (orderBy : List OrderBy) :
    Except String (Pv → Pv → GoResult Bool) :=
  match Comparer env di orderBy with
  | .error e => .error e
  | .ok cmp => .ok (fun a b =>
      match cmp a b with
      | .ok n => .ok (decide (n < 0))
      | .err e => .err e
      | .panicked p => .panicked p)

/-- The body of the closure returned by the second, inlined Less
implementation (the order_by file): same key walk, but the directional test
is done in place instead of negating a comparator result. -/
def lessInlineRun (env : Env) (di : Nat) : List OrderBy → Pv → Pv → GoResult Bool
  | [], _, _ => .ok false
  | ob :: rest, a, b =>
    match resolveOrNil (getFieldPathValue env di a ob.fieldPath.segments) with
    | .panicked p => .panicked p
    | .err e => .err e
    | .ok av =>
      match resolveOrNil (getFieldPathValue env di b ob.fieldPath.segments) with
      | .panicked p => .panicked p
      | .err e => .err e
      | .ok bv =>
        match compareValues av bv with
        | .panicked p => .panicked p
        | .err e => .err e
        | .ok cmp =>
          if cmp = 0 then lessInlineRun env di rest a b
          else if ob.descending then .ok (decide (cmp > 0))
          else .ok (decide (cmp < 0))

/-- The inlined Less of the order_by file: validates the order itself and
returns the inlined key-walk closure. -/
def LessInline (env : Env) (di : Nat) (orderBy : List OrderBy) :
    Except String (Pv → Pv → GoResult Bool) :=
  match validateOrder env di orderBy with
  | .error e => .error e
  | .ok () => .ok (fun a b => lessInlineRun env di orderBy a b)

/-! ## Pagination cursor (page token file) -/

/-- Byte strings. -/
abbrev Bytes := List Nat

/-- Bytes of a Go string (codepoint-level model of the UTF-8 conversion:
only injectivity and the absence of the zero byte matter here, and both
agree with UTF-8 for the identifier texts the library serializes). -/
def strBytes (s : String) : Bytes := s.data.map Char.toNat

/-- serializeOrderByText: join canonical:asc or canonical:desc per key with
the pipe separator. -/
def serializeOrderByText (order : List OrderBy) : Bytes :=
  strBytes (String.intercalate "|" (order.map (fun ob =>
    ob.fieldPath.canonical ++ ":" ++ (if ob.descending then "desc" else "asc"))))

/-- copyFieldPath recursively copies a nested field from src to dst based on
segments, returning the updated dst (the Go original mutates dst in
place). -/
def copyFieldPath (env : Env) : Nat → Pv → Pv → List String → Except String Pv
  | _, _, dst, [] => .ok dst
  | di, src, dst, seg :: rest =>
    match fieldByName (envDescr env di) seg with
    | none => .error ("field " ++ seg ++ " not found")
    | some (idx, fd) =>
      if isRepeatedCardinality fd.card then
        .error ("cannot sort on repeated field " ++ seg)
      else
        let val := msgGet src idx fd
        if rest.isEmpty then .ok (msgSet dst idx val)
        else
          match fd.kind with
          | .kMsg j =>
            let childDst := if msgHas dst idx fd then msgGet dst idx fd else zeroMsg env j
            match copyFieldPath env j val childDst rest with
            | .error e => .error e
            | .ok childDst2 => .ok (msgSet dst idx childDst2)
          | _ => .error ("field " ++ seg ++ " is not a message, cannot descend")

/-- pruneMessage returns a new message containing only the fields needed for
the sort order. -/
def pruneMessage (env : Env) (di : Nat) (msg : Pv) (orderBy : List OrderBy) :
    Except String Pv :=
  go orderBy (zeroMsg env di)
where
  go : List OrderBy → Pv → Except String Pv
    | [], pruned => .ok pruned
    | ob :: rest, pruned =>
      match copyFieldPath env di msg pruned ob.fieldPath.segments with
      | .error e => .error ("copying field " ++ ob.fieldPath.canonical ++ ": " ++ e)
      | .ok pruned2 => go rest pruned2

/-- The external AEAD collaborator (tink.AEAD): encrypt and decrypt with
associated data.  The plaintext and ciphertext types are abstract (in Go
both are byte strings; only the associated data layout matters for the
verified properties, so it stays concrete). -/
structure AEADModel (P C : Type) where
  encrypt : P → Bytes → Except String C
  decrypt : C → Bytes → Except String P

/-- The external proto serialization collaborator (proto.Marshal and
proto.Unmarshal for the fixed target message type), with an abstract wire
type. -/
structure SerModel (P : Type) where
  marshal : Pv → Except String P
  unmarshal : P → Except String Pv

/-- The external base64.RawURLEncoding collaborator with an abstract token
type (encoding is total, decoding can fail). -/
structure B64Model (C T : Type) where
  encode : C → T
  decode : T → Except String C

/-- NewCursor: prune to the ordered fields, marshal, encrypt with
associated data aad, 0, order text, then base64 encode. -/
def NewCursor {P C T : Type} (ser : SerModel P) (aead : AEADModel P C) (b64 : B64Model C T)
    (env : Env) (di : Nat) (m : Pv) (order : List OrderBy) (aad : Bytes) :
    Except String T :=
  match pruneMessage env di m order with
  | .error e => .error ("pruning message: " ++ e)
  | .ok pruned =>
    match ser.marshal pruned with
    | .error e => .error ("marshaling pruned message: " ++ e)
    | .ok raw =>
      match aead.encrypt raw (aad ++ [0] ++ serializeOrderByText order) with
      | .error e => .error ("encrypting token: " ++ e)
      | .ok ciphertext => .ok (b64.encode ciphertext)

/-- Why a decode failed; every failure of DecodeCursor wraps
ErrInvalidPageToken, which the single constructor of CursorErr records. -/
inductive CursorCause where
  | badBase64
  | authFailure
  | badMessage
deriving DecidableEq, Repr

/-- The error type of DecodeCursor: all three failure exits of the source
wrap ErrInvalidPageToken around the underlying cause. -/
inductive CursorErr where
  | invalidPageToken (cause : CursorCause)
deriving DecidableEq, Repr

/-- DecodeCursor parses a page token string: base64 decode, decrypt under
the associated data recomputed from the caller-supplied order and context,
unmarshal.  Each failure wraps ErrInvalidPageToken. -/
def DecodeCursor {P C T : Type} (ser : SerModel P) (aead : AEADModel P C) (b64 : B64Model C T)
    (token : T) (order : List OrderBy) (aad : Bytes) : Except CursorErr Pv :=
  match b64.decode token with
  | .error _ => .error (.invalidPageToken .badBase64)
  | .ok cipher =>
    match aead.decrypt cipher (aad ++ [0] ++ serializeOrderByText order) with
    | .error _ => .error (.invalidPageToken .authFailure)
    | .ok data =>
      match ser.unmarshal data with
      | .error _ => .error (.invalidPageToken .badMessage)
      | .ok msg => .ok msg

/-- CursorFilter generates a filter from a cursor message and an iteration
order: the predicate is true when the argument comes strictly after the
cursor in the sort order. -/
def CursorFilter (env : Env) (di : Nat) (cursor : Pv) (order : List OrderBy) :
    Except String (Pv → GoResult Bool) :=
  match Less env di order with
  | .error e => .error e
  | .ok less => .ok (fun msg => less cursor msg)

/-! ## Filter AST (modelled from the spec and from the evaluator in
filter_closure.go: the AST struct declarations themselves are produced by
the grammar file, which is not among the provided sources). -/

/-- A member: a dotted identifier path or a literal token.  The Comparable
wrapper of the source holds only a Member, so it is flattened away here. -/
structure Member where
  value : String
  fields : List String
deriving DecidableEq, Repr

/-- A restriction: a comparable, an optional comparator (empty string when
absent, making the restriction a global search), and an optional argument
(again flattened to its member). -/
structure Restriction where
  member : Member
  comparator : String
  arg : Option Member
deriving DecidableEq, Repr

mutual
inductive Expression where
  | mk (sequences : List Sequence)
inductive Sequence where
  | mk (factors : List Factor)
inductive Factor where
  | mk (terms : List Term)
inductive Term where
  | mk (negated : Bool) (simple : Simple)
inductive Simple where
  | restriction (r : Restriction)
  | composite (e : Expression)
  | invalidSimple
end

/-- A parsed filter: an optional top-level expression. -/
structure Filter where
  expression : Option Expression

/-! ## Type-erased runtime values of the filter evaluator -/

/-- The Go any universe the filter resolver produces: nil, native scalars,
a proto message, a slice from repeated-field scatter, or a map. -/
inductive AnyV where
  | aNil
  | aInt32 (n : Int)
  | aInt64 (n : Int)
  | aUInt32 (n : Nat)
  | aUInt64 (n : Nat)
  | aBool (b : Bool)
  | aString (s : String)
  | aMsg (m : Pv)
  | aList (xs : List AnyV)
  | aMap (entries : List (AnyV × AnyV))

mutual
/-- Value.Interface(): the Go native value boxed as any. -/
def pvToAny : Pv → AnyV
  | .pInt32 n => .aInt32 n
  | .pInt64 n => .aInt64 n
  | .pUInt32 n => .aUInt32 n
  | .pUInt64 n => .aUInt64 n
  | .pBool b => .aBool b
  | .pString s => .aString s
  | .pMsg fs => .aMsg (.pMsg fs)
  | .pNoMsg => .aMsg .pNoMsg
  | .pList xs => .aList (pvListToAny xs)
  | .pMap es => .aMap (pvEntriesToAny es)

def pvListToAny : List Pv → List AnyV
  | [] => []
  | x :: xs => pvToAny x :: pvListToAny xs

def pvEntriesToAny : List (Pv × Pv) → List (AnyV × AnyV)
  | [] => []
  | e :: es => (pvToAny e.1, pvToAny e.2) :: pvEntriesToAny es
end

/-- The element list of a list-typed Value. -/
def anyElemsOf (v : Pv) : List AnyV :=
  match v with
  | .pList xs => pvListToAny xs
  | _ => []

/-- The entry list of a map-typed Value, as Range produces key and value
Interface() pairs. -/
def anyEntriesOf (v : Pv) : List (AnyV × AnyV) :=
  match v with
  | .pMap es => pvEntriesToAny es
  | _ => []

mutual
/-- Structural equality on the modelled message values; stands in for
proto.Equal and for reflect.DeepEqual on message-typed operands. -/
def pvBeq : Pv → Pv → Bool
  | .pInt32 n, .pInt32 m => n == m
  | .pInt64 n, .pInt64 m => n == m
  | .pUInt32 n, .pUInt32 m => n == m
  | .pUInt64 n, .pUInt64 m => n == m
  | .pBool a, .pBool b => a == b
  | .pString a, .pString b => a == b
  | .pMsg a, .pMsg b => pvListBeq a b
  | .pNoMsg, .pNoMsg => true
  | .pList a, .pList b => pvListBeq a b
  | .pMap a, .pMap b => pvEntriesBeq a b
  | _, _ => false

def pvListBeq : List Pv → List Pv → Bool
  | [], [] => true
  | x :: xs, y :: ys => pvBeq x y && pvListBeq xs ys
  | _, _ => false

def pvEntriesBeq : List (Pv × Pv) → List (Pv × Pv) → Bool
  | [], [] => true
  | e :: es, f :: fs => pvBeq e.1 f.1 && pvBeq e.2 f.2 && pvEntriesBeq es fs
  | _, _ => false
end

mutual
/-- reflect.DeepEqual restricted to the modelled any universe: structural
equality. -/
def anyBeq : AnyV → AnyV → Bool
  | .aNil, .aNil => true
  | .aInt32 n, .aInt32 m => n == m
  | .aInt64 n, .aInt64 m => n == m
  | .aUInt32 n, .aUInt32 m => n == m
  | .aUInt64 n, .aUInt64 m => n == m
  | .aBool a, .aBool b => a == b
  | .aString a, .aString b => a == b
  | .aMsg a, .aMsg b => pvBeq a b
  | .aList a, .aList b => anyListBeq a b
  | .aMap a, .aMap b => anyEntriesBeq a b
  | _, _ => false

def anyListBeq : List AnyV → List AnyV → Bool
  | [], [] => true
  | x :: xs, y :: ys => anyBeq x y && anyListBeq xs ys
  | _, _ => false

def anyEntriesBeq : List (AnyV × AnyV) → List (AnyV × AnyV) → Bool
  | [], [] => true
  | e :: es, f :: fs => anyBeq e.1 f.1 && anyBeq e.2 f.2 && anyEntriesBeq es fs
  | _, _ => false
end

/-! ## Member resolution (filter_closure.go) -/

/-- resolveMemberValueFromMessage walks the remaining dotted fields below a
valid message.  An unknown subfield or descent into a non-message field is
an error; an unset intermediate singular message yields nil; descent
through a list or map field would call Value.Message() on a non-message
value, which panics in Go. -/
def resolveMemberValueFromMessage (env : Env) : Nat → Pv → List String → GoResult AnyV
  | _, _, [] => .err "unreachable"
  | di, cur, fname :: rest =>
    match fieldByName (envDescr env di) fname with
    | none => .err ("unknown subfield " ++ fname)
    | some (idx, fd) =>
      let v := msgGet cur idx fd
      if rest.isEmpty then
        match fd.card with
        | .mapped _ => .ok (.aMap (anyEntriesOf v))
        | .list => .ok (.aList (anyElemsOf v))
        | .singular => .ok (pvToAny v)
      else
        match fd.card, fd.kind with
        | .singular, .kMsg j =>
          match v with
          | .pNoMsg => .ok .aNil
          | _ => resolveMemberValueFromMessage env j v rest
        | .singular, _ => .err ("cannot descend into non-message subfield " ++ fname)
        | .list, .kMsg _ => .panicked "value of list field is not a message"
        | .list, _ => .err ("cannot descend into non-message subfield " ++ fname)
        | .mapped _, _ => .panicked "value of map field is not a message"

/-- The per-element loop of the repeated-message branch of
resolveMemberValue: invalid elements resolve to nil, the first element
error aborts the whole resolution. -/
def resolveListElems (env : Env) (j : Nat) (fields : List String) :
    List Pv → GoResult (List AnyV)
  | [] => .ok []
  | e :: es =>
    let head : GoResult AnyV :=
      match e with
      | .pNoMsg => .ok .aNil
      | .pMsg fs => resolveMemberValueFromMessage env j (.pMsg fs) fields
      | _ => .panicked "list element is not a message"
    match head with
    | .err e2 => .err e2
    | .panicked p => .panicked p
    | .ok h =>
      match resolveListElems env j fields es with
      | .err e2 => .err e2
      | .panicked p => .panicked p
      | .ok t => .ok (h :: t)

/-- resolveMemberValue: resolve a member against a message.  A name that is
not a top-level field is a literal string when it has no subfields;
maps resolve whole; repeated message fields scatter into one resolution
per element; an unset singular message resolves to nil. -/
def resolveMemberValue (env : Env) (di : Nat) (m : Pv) (mem : Member) : GoResult AnyV :=
  match fieldByName (envDescr env di) mem.value with
  | none =>
    if mem.fields.isEmpty then .ok (.aString mem.value)
    else .err ("unknown top-level field " ++ mem.value)
  | some (idx, fd) =>
    let val := msgGet m idx fd
    match fd.card with
    | .mapped _ =>
      if mem.fields.isEmpty then .ok (.aMap (anyEntriesOf val))
      else .err ("cannot descend into map field " ++ mem.value)
    | .list =>
      if mem.fields.isEmpty then .ok (.aList (anyElemsOf val))
      else
        match fd.kind with
        | .kMsg j =>
          match resolveListElems env j mem.fields (match val with | .pList xs => xs | _ => []) with
          | .err e => .err e
          | .panicked p => .panicked p
          | .ok results => .ok (.aList results)
        | _ => .err ("cannot descend into repeated non-message field " ++ mem.value)
    | .singular =>
      if mem.fields.isEmpty then .ok (pvToAny val)
      else
        match fd.kind with
        | .kMsg j =>
          match val with
          | .pNoMsg => .ok .aNil
          | _ => resolveMemberValueFromMessage env j val mem.fields
        | _ => .err ("cannot descend into non-message field " ++ mem.value)

/-! ## Type-erased comparison (compareAny) -/

/-- asFloat64: Go widens every native numeric kind to float64.  Modelled
exactly over Int (the verified claims never depend on float64 rounding of
integers beyond 2 to the 53rd). -/
def asFloat64 : AnyV → Option Int
  | .aInt32 n => some n
  | .aInt64 n => some n
  | .aUInt32 n => some (Int.ofNat n)
  | .aUInt64 n => some (Int.ofNat n)
  | _ => none

/-- The map branch of the has operator: any key or value deep-equal to the
right side, or any string key or value containing a string right side. -/
def mapHasColon (rhs : AnyV) : List (AnyV × AnyV) → Bool
  | [] => false
  | (k, v) :: rest =>
    anyBeq k rhs || anyBeq v rhs ||
    (match k, rhs with
     | .aString ks, .aString rs => strContainsSubstr ks rs
     | _, _ => false) ||
    (match v, rhs with
     | .aString vs, .aString rs => strContainsSubstr vs rs
     | _, _ => false) ||
    mapHasColon rhs rest

/-- The non-slice core of compareAny: has, equality, ordering, exactly in
source order with the source fallbacks and error messages. -/
def compareAnyScalar (lhs rhs : AnyV) (op : String) : GoResult Bool :=
  if op = ":" then
    match lhs, rhs with
    | .aString ls, .aString rs => .ok (strContainsSubstr ls rs)
    | .aMap entries, _ => .ok (mapHasColon rhs entries)
    | _, _ => .ok (anyBeq lhs rhs)
  else if op = "=" || op = "!=" then
    let eq : Bool :=
      match asFloat64 lhs with
      | some ln =>
        match asFloat64 rhs with
        | some rn => ln == rn
        | none => false
      | none =>
        match lhs with
        | .aString ls =>
          match rhs with
          | .aString rs => ls == rs
          | _ => false
        | .aBool lb =>
          match rhs with
          | .aBool rb => lb == rb
          | _ => false
        | .aMsg lm =>
          match rhs with
          | .aMsg rm => pvBeq lm rm
          | _ => false
        | _ => anyBeq lhs rhs
    if op = "=" then .ok eq else .ok (!eq)
  else
    match asFloat64 lhs with
    | some ln =>
      match asFloat64 rhs with
      | some rn =>
        if op = ">" then .ok (decide (ln > rn))
        else if op = "<" then .ok (decide (ln < rn))
        else if op = ">=" then .ok (decide (ln >= rn))
        else if op = "<=" then .ok (decide (ln <= rn))
        else .err ("rhs is not numeric for operator " ++ op)
      | none => .err ("rhs is not numeric for operator " ++ op)
    | none =>
      match lhs with
      | .aString ls =>
        match rhs with
        | .aString rs =>
          if op = ">" then .ok (strLt rs ls)
          else if op = "<" then .ok (strLt ls rs)
          else if op = ">=" then .ok (!strLt ls rs)
          else if op = "<=" then .ok (!strLt rs ls)
          else .err ("rhs is not string for operator " ++ op)
        | _ => .err ("rhs is not string for operator " ++ op)
      | _ => .err ("unsupported comparator " ++ op)

mutual
/-- compareAny implements the comparators.  A slice on either side gets
any-element-matches semantics (left side first), then the scalar core. -/
def compareAny (lhs rhs : AnyV) (op : String) : GoResult Bool :=
  match lhs with
  | .aList xs => compareAnyLhsList xs rhs op
  | l =>
    match rhs with
    | .aList ys => compareAnyRhsList l ys op
    | _ => compareAnyScalar l rhs op
termination_by sizeOf lhs + sizeOf rhs

def compareAnyLhsList (xs : List AnyV) (rhs : AnyV) (op : String) : GoResult Bool :=
  match xs with
  | [] => .ok false
  | x :: rest =>
    match compareAny x rhs op with
    | .err e => .err e
    | .panicked p => .panicked p
    | .ok true => .ok true
    | .ok false => compareAnyLhsList rest rhs op
termination_by sizeOf xs + sizeOf rhs

def compareAnyRhsList (lhs : AnyV) (ys : List AnyV) (op : String) : GoResult Bool :=
  match ys with
  | [] => .ok false
  | y :: rest =>
    match compareAny lhs y op with
    | .err e => .err e
    | .panicked p => .panicked p
    | .ok true => .ok true
    | .ok false => compareAnyRhsList lhs rest op
termination_by sizeOf lhs + sizeOf ys
end

/-! ## Global search (searchMessageStrings and fieldContains) -/

/-- Value.String() of a string-kinded value. -/
def pvString : Pv → String
  | .pString s => s
  | _ => ""

/-- fd.MapKey(): a synthetic singular descriptor of the key kind. -/
def mapKeyFd (kk : Kind) : FieldDescr :=
  { name := "key", card := .singular, kind := kk }

/-- fd.MapValue(): a synthetic singular descriptor of the value kind. -/
def mapValFd (fd : FieldDescr) : FieldDescr :=
  { name := "value", card := .singular, kind := fd.kind }

mutual
/-- searchMessageStrings: lower the term once, then scan every field of the
message in descriptor order; list fields element by element, map fields
entry by entry over both key and value, singular fields directly. -/
def searchMessageStrings (env : Env) (di : Nat) (m : Pv) (term : String) : Bool :=
  match m with
  | .pMsg vals => searchFieldsLoop env (envDescr env di) vals (strLower term)
  | _ => false
termination_by (sizeOf m, 0)

def searchFieldsLoop (env : Env) (fds : List FieldDescr) (vals : List Pv) (term : String) : Bool :=
  match fds, vals with
  | [], _ => false
  | _ :: _, [] => false
  | fd :: fds2, v :: vs =>
    searchOneField env fd v term || searchFieldsLoop env fds2 vs term
termination_by (sizeOf vals, 3)

def searchOneField (env : Env) (fd : FieldDescr) (v : Pv) (term : String) : Bool :=
  match fd.card, v with
  | .list, .pList xs => searchListLoop env fd xs term
  | .list, _ => false
  | .mapped kk, .pMap es => searchMapLoop env (mapKeyFd kk) (mapValFd fd) es term
  | .mapped _, _ => false
  | .singular, v2 => fieldContains env fd v2 term
termination_by (sizeOf v, 2)

def searchListLoop (env : Env) (fd : FieldDescr) (xs : List Pv) (term : String) : Bool :=
  match xs with
  | [] => false
  | x :: rest => fieldContains env fd x term || searchListLoop env fd rest term
termination_by (sizeOf xs, 3)

def searchMapLoop (env : Env) (kfd vfd : FieldDescr) (es : List (Pv × Pv)) (term : String) : Bool :=
  match es with
  | [] => false
  | (k, v) :: rest =>
    fieldContains env kfd k term || fieldContains env vfd v term ||
    searchMapLoop env kfd vfd rest term
termination_by (sizeOf es, 3)

/-- fieldContains: a string-kinded value is lowered and tested for the
term as a substring; a valid message value is searched recursively; every
other kind never matches. -/
def fieldContains (env : Env) (fd : FieldDescr) (v : Pv) (term : String) : Bool :=
  match fd.kind with
  | .kString => strContainsSubstr (strLower (pvString v)) term
  | .kMsg j =>
    match v with
    | .pMsg fs => searchMessageStrings env j (.pMsg fs) term
    | _ => false
  | _ => false
termination_by (sizeOf v, 1)
end

/-! ## AST evaluation (AND, OR, NOT, parentheses) -/

/-- evalRestriction: a missing comparator makes the restriction a global
search for the member token; otherwise both comparables are resolved (any
resolution error propagates) and compared with the operator. -/
def evalRestriction (env : Env) (di : Nat) (m : Pv) (r : Restriction) : GoResult Bool :=
  if r.comparator = "" then .ok (searchMessageStrings env di m r.member.value)
  else
    match resolveMemberValue env di m r.member with
    | .err e => .err e
    | .panicked p => .panicked p
    | .ok lhs =>
      match r.arg with
      | none => .err "missing arg in restriction"
      | some argMem =>
        match resolveMemberValue env di m argMem with
        | .err e => .err e
        | .panicked p => .panicked p
        | .ok rhs => compareAny lhs rhs r.comparator

mutual
/-- evalExpression: AND over the sequences, short-circuiting on the first
false and aborting on the first error. -/
def evalExpression (env : Env) (di : Nat) (m : Pv) : Expression → GoResult Bool
  | .mk seqs => evalSequencesLoop env di m seqs
termination_by e => sizeOf e

def evalSequencesLoop (env : Env) (di : Nat) (m : Pv) : List Sequence → GoResult Bool
  | [] => .ok true
  | s :: rest =>
    match evalSequence env di m s with
    | .err e => .err e
    | .panicked p => .panicked p
    | .ok false => .ok false
    | .ok true => evalSequencesLoop env di m rest
termination_by ss => sizeOf ss

/-- evalSequence: AND over the factors. -/
def evalSequence (env : Env) (di : Nat) (m : Pv) : Sequence → GoResult Bool
  | .mk factors => evalFactorsLoop env di m factors
termination_by s => sizeOf s

def evalFactorsLoop (env : Env) (di : Nat) (m : Pv) : List Factor → GoResult Bool
  | [] => .ok true
  | f :: rest =>
    match evalFactor env di m f with
    | .err e => .err e
    | .panicked p => .panicked p
    | .ok false => .ok false
    | .ok true => evalFactorsLoop env di m rest
termination_by fs => sizeOf fs

/-- evalFactor: OR over the terms, short-circuiting on the first true. -/
def evalFactor (env : Env) (di : Nat) (m : Pv) : Factor → GoResult Bool
  | .mk terms => evalTermsLoop env di m terms
termination_by f => sizeOf f

def evalTermsLoop (env : Env) (di : Nat) (m : Pv) : List Term → GoResult Bool
  | [] => .ok false
  | t :: rest =>
    match evalTerm env di m t with
    | .err e => .err e
    | .panicked p => .panicked p
    | .ok true => .ok true
    | .ok false => evalTermsLoop env di m rest
termination_by ts => sizeOf ts

/-- evalTerm: logical NOT when the term is negated; an error from the
simple is propagated without applying the negation. -/
def evalTerm (env : Env) (di : Nat) (m : Pv) : Term → GoResult Bool
  | .mk negated simple =>
    match evalSimple env di m simple with
    | .err e => .err e
    | .panicked p => .panicked p
    | .ok ok2 => if negated then .ok (!ok2) else .ok ok2
termination_by t => sizeOf t

/-- evalSimple: a restriction leaf, a parenthesized composite expression,
or an invalid node error. -/
def evalSimple (env : Env) (di : Nat) (m : Pv) : Simple → GoResult Bool
  | .restriction r => evalRestriction env di m r
  | .composite e => evalExpression env di m e
  | .invalidSimple => .err "invalid simple node"
termination_by s => sizeOf s
end

/-- matchesFilter: an absent filter or expression matches everything. -/
def matchesFilter (env : Env) (di : Nat) (m : Pv) (f : Option Filter) : GoResult Bool :=
  match f with
  | none => .ok true
  | some fl =>
    match fl.expression with
    | none => .ok true
    | some e => evalExpression env di m e

/-- The closure ProtoFilter returns: evaluation errors are discarded and
degrade to false; a panic propagates out of the closure. -/
def protoFilterClosureRun (env : Env) (di : Nat) (f : Option Filter) (m : Pv) : GoResult Bool :=
  match matchesFilter env di m f with
  | .ok b => .ok b
  | .err _ => .ok false
  | .panicked p => .panicked p

/-- ProtoFilter compiles a parsed filter into a predicate closure: a nil
filter is always true; otherwise the filter is validated once against a
zero instance of the target type and the error surfaced before any closure
is handed out. -/
def ProtoFilter (env : Env) (di : Nat) (f : Option Filter) : GoResult (Pv → GoResult Bool) :=
  match f with
  | none => .ok (fun _ => .ok true)
  | some _ =>
    match matchesFilter env di (zeroMsg env di) f with
    | .err e => .err e
    | .panicked p => .panicked p
    | .ok _ => .ok (fun m => protoFilterClosureRun env di f m)

/-! ## Specification-side definitions (worded from spec.md, for comparison
against the source translations above) -/

/-- Modelled from the spec (section 3, Field Path invariant): a field path
is valid for a record type when every segment resolves to an existing
field, no segment is a repeated or map field, and every non-final segment
is a singular record-typed field. -/
def pathValidForSort (env : Env) : Nat → List String → Bool
  | _, [] => true
  | di, seg :: rest =>
    match fieldByName (envDescr env di) seg with
    | none => false
    | some (_, fd) =>
      if isRepeatedCardinality fd.card then false
      else if rest.isEmpty then true
      else
        match fd.kind with
        | .kMsg j => pathValidForSort env j rest
        | _ => false

/-- Modelled from the spec (claim premise of the compile-time rejection
property): the proper descriptor walk of a path finds a repeated or map
field, or a segment that names no field, before any descent into a
scalar. -/
def pathHitsRepeatedMapOrMissing (env : Env) : Nat → List String → Bool
  | _, [] => false
  | di, seg :: rest =>
    match fieldByName (envDescr env di) seg with
    | none => true
    | some (_, fd) =>
      if isRepeatedCardinality fd.card then true
      else
        match fd.kind with
        | .kMsg j => pathHitsRepeatedMapOrMissing env j rest
        | _ => false

/-- Modelled from the spec (section 4.4): read the leaf value of a field
path, resolving an absent embedded record as the zero value of the target
type (reading Get on an invalid message yields defaults). -/
def readFieldPathZ (env : Env) : Nat → Pv → List String → Pv
  | _, m, [] => m
  | di, m, seg :: rest =>
    match fieldByName (envDescr env di) seg with
    | none => .pNoMsg
    | some (idx, fd) =>
      let v := msgGet m idx fd
      if rest.isEmpty then v
      else
        match fd.kind with
        | .kMsg j => readFieldPathZ env j v rest
        | _ => .pNoMsg

/-- Modelled from the spec (section 4.5 step 1): write a value at a field
path, creating nested records only as needed to hold the leaf value. -/
def writeFieldPath (env : Env) : Nat → Pv → List String → Pv → Pv
  | _, acc, [], _ => acc
  | di, acc, seg :: rest, v =>
    match fieldByName (envDescr env di) seg with
    | none => acc
    | some (idx, fd) =>
      if rest.isEmpty then msgSet acc idx v
      else
        match fd.kind with
        | .kMsg j =>
          let child := if msgHas acc idx fd then msgGet acc idx fd else zeroMsg env j
          msgSet acc idx (writeFieldPath env j child rest v)
        | _ => acc

/-- Modelled from the spec (sections 4.5 and 8, round-trip property): the
projection of a record onto the field paths of an order: starting from a
fresh zero record of the same type, copy the zero-defaulted value at each
ordered path; every field not named by a path stays at its zero value. -/
def projectRecord (env : Env) (di : Nat) (R : Pv) (order : List OrderBy) : Pv :=
  order.foldl
    (fun acc ob =>
      writeFieldPath env di acc ob.fieldPath.segments
        (readFieldPathZ env di R ob.fieldPath.segments))
    (zeroMsg env di)

/-- Modelled from the spec: an order is valid for a record type when each
of its key paths is. -/
def orderValidForSort (env : Env) (di : Nat) (order : List OrderBy) : Bool :=
  order.all (fun ob => pathValidForSort env di ob.fieldPath.segments)

mutual
/-- Modelled from the spec (claim wording of the global-search property,
amended): the strings reachable from a record, through singular record
fields recursively, through every element of repeated fields, and through
keys and values of map fields, where message-typed map values are searched
recursively and only string-typed keys and values contribute directly. -/
def reachableStrings (env : Env) (di : Nat) (m : Pv) : List String :=
  match m with
  | .pMsg vals => reachFields env (envDescr env di) vals
  | _ => []
termination_by (sizeOf m, 0)

def reachFields (env : Env) (fds : List FieldDescr) (vals : List Pv) : List String :=
  match fds, vals with
  | [], _ => []
  | _ :: _, [] => []
  | fd :: fds2, v :: vs => reachField env fd v ++ reachFields env fds2 vs
termination_by (sizeOf vals, 3)

def reachField (env : Env) (fd : FieldDescr) (v : Pv) : List String :=
  match fd.card, v with
  | .list, .pList xs => reachElems env fd xs
  | .list, _ => []
  | .mapped kk, .pMap es => reachEntries env (mapKeyFd kk) (mapValFd fd) es
  | .mapped _, _ => []
  | .singular, v2 => reachValue env fd v2
termination_by (sizeOf v, 2)

def reachElems (env : Env) (fd : FieldDescr) (xs : List Pv) : List String :=
  match xs with
  | [] => []
  | x :: rest => reachValue env fd x ++ reachElems env fd rest
termination_by (sizeOf xs, 3)

def reachEntries (env : Env) (kfd vfd : FieldDescr) (es : List (Pv × Pv)) : List String :=
  match es with
  | [] => []
  | (k, v) :: rest =>
    reachValue env kfd k ++ reachValue env vfd v ++ reachEntries env kfd vfd rest
termination_by (sizeOf es, 3)

def reachValue (env : Env) (fd : FieldDescr) (v : Pv) : List String :=
  match fd.kind with
  | .kString => [pvString v]
  | .kMsg j =>
    match v with
    | .pMsg fs => reachableStrings env j (.pMsg fs)
    | _ => []
  | _ => []
termination_by (sizeOf v, 1)
end

/-- The string contribution of a map key or value under the claim reading:
only string-typed entries count. -/
def stringOnly (fd : FieldDescr) (v : Pv) : Option String :=
  match fd.kind with
  | .kString => some (pvString v)
  | _ => none

mutual
/-- Modelled from the spec (claim wording of the global-search property,
as stated): the strings reachable from a record, through singular record
fields recursively, through every element of repeated fields, and through
keys and values of map fields, string-typed only (no recursion into
message-typed map values). -/
def reachableStringsClaim (env : Env) (di : Nat) (m : Pv) : List String :=
  match m with
  | .pMsg vals => reachFieldsClaim env (envDescr env di) vals
  | _ => []
termination_by (sizeOf m, 0)

def reachFieldsClaim (env : Env) (fds : List FieldDescr) (vals : List Pv) : List String :=
  match fds, vals with
  | [], _ => []
  | _ :: _, [] => []
  | fd :: fds2, v :: vs => reachFieldClaim env fd v ++ reachFieldsClaim env fds2 vs
termination_by (sizeOf vals, 3)

def reachFieldClaim (env : Env) (fd : FieldDescr) (v : Pv) : List String :=
  match fd.card, v with
  | .list, .pList xs => reachElemsClaim env fd xs
  | .list, _ => []
  | .mapped kk, .pMap es =>
    (es.map Prod.fst).filterMap (stringOnly (mapKeyFd kk)) ++
    (es.map Prod.snd).filterMap (stringOnly (mapValFd fd))
  | .mapped _, _ => []
  | .singular, v2 => reachValueClaim env fd v2
termination_by (sizeOf v, 2)

def reachElemsClaim (env : Env) (fd : FieldDescr) (xs : List Pv) : List String :=
  match xs with
  | [] => []
  | x :: rest => reachValueClaim env fd x ++ reachElemsClaim env fd rest
termination_by (sizeOf xs, 3)

def reachValueClaim (env : Env) (fd : FieldDescr) (v : Pv) : List String :=
  match fd.kind with
  | .kString => [pvString v]
  | .kMsg j =>
    match v with
    | .pMsg fs => reachableStringsClaim env j (.pMsg fs)
    | _ => []
  | _ => []
termination_by (sizeOf v, 1)
end

/-- The filter AST of a single bare term with no comparator (a global
restriction). -/
def globalFilter (t : String) : Option Filter :=
  some (Filter.mk (some (.mk [.mk [.mk [.mk false
    (.restriction (Restriction.mk (Member.mk t []) "" none))]]])))

/-! ## The test schema of the repository (testpb.Book and testpb.Author) -/

/-- The Author message descriptor: given_name and family_name strings. -/
def authorDescr : MessageDescr :=
  [ { name := "given_name", card := .singular, kind := .kString },
    { name := "family_name", card := .singular, kind := .kString } ]

/-- The Book message descriptor: title and name strings, a singular author,
a repeated authors list, a string-keyed reviews map and an int32-keyed
items map. -/
def bookDescr : MessageDescr :=
  [ { name := "title", card := .singular, kind := .kString },
    { name := "name", card := .singular, kind := .kString },
    { name := "author", card := .singular, kind := .kMsg 1 },
    { name := "authors", card := .list, kind := .kMsg 1 },
    { name := "reviews", card := .mapped .kString, kind := .kString },
    { name := "items", card := .mapped .kInt32, kind := .kString } ]

/-- The schema environment: Book at index 0, Author at index 1. -/
def bookEnv : Env := [bookDescr, authorDescr]

/-- An Author record. -/
def mkAuthor (gn fn : String) : Pv := .pMsg [.pString gn, .pString fn]

/-- A Book record from all six fields. -/
def mkBook (title name : String) (author : Pv) (authors : List Pv)
    (reviews : List (Pv × Pv)) (items : List (Pv × Pv)) : Pv :=
  .pMsg [.pString title, .pString name, author, .pList authors, .pMap reviews, .pMap items]

/-- The zero Book (author unset, empty collections). -/
def bookZero : Pv := mkBook "" "" .pNoMsg [] [] []

/-- Order author.given_name ascending. -/
def gnAscOrder : List OrderBy :=
  [⟨⟨["author", "given_name"], "author.given_name"⟩, false⟩]

/-- Order author.given_name descending. -/
def gnDescOrder : List OrderBy :=
  [⟨⟨["author", "given_name"], "author.given_name"⟩, true⟩]

/-- Order on the message-typed leaf author. -/
def authorKeyOrder : List OrderBy := [⟨⟨["author"], "author"⟩, false⟩]

/-- Order title ascending. -/
def titleAscOrder : List OrderBy := [⟨⟨["title"], "title"⟩, false⟩]

/-- Order title descending. -/
def titleDescOrder : List OrderBy := [⟨⟨["title"], "title"⟩, true⟩]

/-- Order on the map field reviews. -/
def reviewsOrder : List OrderBy := [⟨⟨["reviews"], "reviews"⟩, false⟩]

/-- A Book with author present but both author names empty. -/
def bookEmptyGn : Pv := mkBook "" "" (mkAuthor "" "") [] [] []

/-- The book record of the repository filter tests. -/
def pragBook : Pv :=
  mkBook "The Pragmatic Programmer" "books/123" (mkAuthor "Andy" "Hunt")
    [mkAuthor "Andy" "Hunt", mkAuthor "Dave" "Thomas"]
    [(.pString "review1", .pString "Classic software engineering advice"),
     (.pString "review2", .pString "By Andy Hunt and Dave Thomas")]
    [(.pInt32 1, .pString "hardcover"), (.pInt32 2, .pString "ebook")]

/-! ## Claim theorems -/

/-- C3: the claim asserts that a closure returned by Comparer or Less never
panics and in particular never reaches the panic branch of compareValues
for an order that passed validation.  The code contradicts this: the order
consisting of the single message-typed leaf author passes validation,
Comparer returns a closure, and that closure reaches the panic branch of
compareValues on every pair of records, here two zero Books. -/
theorem c3_compiled_comparator_panics :
    validateOrder bookEnv 0 authorKeyOrder = .ok () ∧
    (∃ f, Comparer bookEnv 0 authorKeyOrder = .ok f ∧
      f bookZero bookZero = .panicked "unsupported type in compareValues") :=
  ⟨rfl, fun a b => comparerRun bookEnv 0 authorKeyOrder a b, rfl, rfl⟩

/-- C4: the claim asserts compare(a,b) = -compare(b,a) and that less(a,b)
and less(b,a) are never both true, for every validated order.  The code
contradicts this at the validated order author.given_name with a = b = the
zero Book (author unset on both sides): the comparator returns 1 in both
argument orders, so compare(a,b) is 1 while -compare(b,a) is -1, and under
the descending variant the comparator returns -1 both ways, making
less(a,b) and less(b,a) both true. -/
theorem c4_antisymmetry_violated :
    validateOrder bookEnv 0 gnAscOrder = .ok () ∧
    comparerRun bookEnv 0 gnAscOrder bookZero bookZero = .ok 1 ∧
    ((1 : Int) ≠ -1) ∧
    validateOrder bookEnv 0 gnDescOrder = .ok () ∧
    (∃ l, Less bookEnv 0 gnDescOrder = .ok l ∧ l bookZero bookZero = .ok true) :=
  ⟨rfl, rfl, by decide, rfl,
    fun a b =>
      match comparerRun bookEnv 0 gnDescOrder a b with
      | .ok n => .ok (decide (n < 0))
      | .err e => .err e
      | .panicked p => .panicked p,
    rfl, rfl⟩

/-- C6: the claim asserts that a record whose singular message field is
unset sorts exactly as if the leaf held the zero value, so two Books with
author unset tie, and an unset author ties with a present author whose
given_name is empty.  The code contradicts this at the validated order
author.given_name: both resolutions fail, compareValues receives two nil
interfaces and returns 1 instead of 0; against a present-but-empty author
the unset side compares -1 instead of tying; and with the present author
on the left the unchecked string type assertion on nil panics. -/
theorem c6_missing_embedded_not_zero_value :
    validateOrder bookEnv 0 gnAscOrder = .ok () ∧
    comparerRun bookEnv 0 gnAscOrder bookZero bookZero = .ok 1 ∧
    comparerRun bookEnv 0 gnAscOrder bookZero bookEmptyGn = .ok (-1) ∧
    comparerRun bookEnv 0 gnAscOrder bookEmptyGn bookZero =
      .panicked "interface conversion to string" :=
  ⟨rfl, rfl, rfl, rfl⟩

/-- The member author.bad: the subfield bad does not exist on Author. -/
def authorBadMember : Member := Member.mk "author" ["bad"]

/-- The filter NOT author.bad = x as an AST. -/
def notAuthorBadFilter : Option Filter :=
  some (Filter.mk (some (.mk [.mk [.mk [.mk true
    (.restriction (Restriction.mk authorBadMember "=" (some (Member.mk "x" []))))]]])))

/-- C5: the claim asserts that a runtime resolution failure makes the one
failing restriction evaluate false, so a negated restriction whose
resolution fails evaluates true.  The code contradicts this: the filter
NOT author.bad = x compiles (validation runs on a zero record whose unset
author resolves to nil without error), on a record with author set the
restriction resolution fails, and the compiled closure returns false for
the whole filter: the error aborts evaluation before the negation is
applied, instead of the restriction alone degrading to no-match. -/
theorem c5_counterexample :
    (∃ f, ProtoFilter bookEnv 0 notAuthorBadFilter = .ok f ∧
      resolveMemberValue bookEnv 0 pragBook authorBadMember = .err "unknown subfield bad" ∧
      f pragBook = .ok false) := by
  refine ⟨fun m => protoFilterClosureRun bookEnv 0 notAuthorBadFilter m, ?_, rfl, ?_⟩
  · simp [ProtoFilter, matchesFilter, notAuthorBadFilter, evalExpression,
      evalSequencesLoop, evalSequence, evalFactorsLoop, evalFactor, evalTermsLoop,
      evalTerm, evalSimple, evalRestriction, resolveMemberValue, authorBadMember,
      bookEnv, bookDescr, authorDescr, envDescr, fieldByName, zeroMsg, zeroField,
      msgGet, compareAny, compareAnyScalar, asFloat64, anyBeq]
  · simp [protoFilterClosureRun, matchesFilter, notAuthorBadFilter, evalExpression,
      evalSequencesLoop, evalSequence, evalFactorsLoop, evalFactor, evalTermsLoop,
      evalTerm, evalSimple, evalRestriction, resolveMemberValue,
      resolveMemberValueFromMessage, authorBadMember, bookEnv, bookDescr, authorDescr,
      envDescr, fieldByName, msgGet, zeroField, pragBook, mkBook, mkAuthor]

/-- C5 amended: a resolution or comparison error arising while a compiled
filter closure evaluates a record aborts the evaluation of the whole
expression, and the closure maps the error to false for the entire filter
(negations enclosing the failing restriction are not applied). -/
theorem c5_amended_error_fails_whole_filter (env : Env) (di : Nat) (f : Option Filter)
    (m : Pv) (e : String) (h : matchesFilter env di m f = .err e) :
    protoFilterClosureRun env di f m = .ok false := by
  unfold protoFilterClosureRun
  rw [h]

/-- Helper: the concrete runtime resolution failure of C5. -/
lemma matchesFilter_notAuthorBad_pragBook :
    matchesFilter bookEnv 0 pragBook notAuthorBadFilter = .err "unknown subfield bad" := by
  simp [matchesFilter, notAuthorBadFilter, evalExpression, evalSequencesLoop,
    evalSequence, evalFactorsLoop, evalFactor, evalTermsLoop, evalTerm, evalSimple,
    evalRestriction, resolveMemberValue, resolveMemberValueFromMessage,
    authorBadMember, bookEnv, bookDescr, authorDescr, envDescr, fieldByName,
    msgGet, zeroField, pragBook, mkBook, mkAuthor]

/-- C5 witness: the amended theorem applied at the concrete filter
NOT author.bad = x and the concrete book record with author set. -/
theorem c5_amended_witness :
    matchesFilter bookEnv 0 pragBook notAuthorBadFilter = .err "unknown subfield bad" ∧
    protoFilterClosureRun bookEnv 0 notAuthorBadFilter pragBook = .ok false :=
  ⟨matchesFilter_notAuthorBad_pragBook,
    c5_amended_error_fails_whole_filter bookEnv 0 notAuthorBadFilter pragBook
      "unknown subfield bad" matchesFilter_notAuthorBad_pragBook⟩

/-- Helper: whenever the proper descriptor walk of a path finds a repeated
or map field or a missing field, validateFieldPath rejects the path.  (The
two walks agree until the first scalar descent, which the premise
excludes.) -/
lemma validateFieldPath_rejects (env : Env) :
    ∀ (segs : List String) (di : Nat),
      pathHitsRepeatedMapOrMissing env di segs = true →
      ∃ e, validateFieldPath env di segs = .error e := by
  intro segs
  induction segs with
  | nil =>
    intro di h
    simp [pathHitsRepeatedMapOrMissing] at h
  | cons s rest ih =>
    intro di h
    unfold pathHitsRepeatedMapOrMissing at h
    unfold validateFieldPath
    cases hf : fieldByName (envDescr env di) s with
    | none =>
      simp only [hf]
      exact ⟨_, rfl⟩
    | some p =>
      obtain ⟨idx, fd⟩ := p
      simp only [hf] at h ⊢
      by_cases hrep : isRepeatedCardinality fd.card = true
      · simp only [hrep, if_true]
        exact ⟨_, rfl⟩
      · simp only [hrep, if_false] at h ⊢
        cases hk : fd.kind with
        | kMsg j =>
          rw [hk] at h
          exact ih j h
        | kInt32 => rw [hk] at h; cases h
        | kInt64 => rw [hk] at h; cases h
        | kUInt32 => rw [hk] at h; cases h
        | kUInt64 => rw [hk] at h; cases h
        | kBool => rw [hk] at h; cases h
        | kString => rw [hk] at h; cases h

/-- Helper: an order containing a bad key fails the shared validation
loop. -/
lemma validateOrder_rejects (env : Env) (di : Nat) :
    ∀ (order : List OrderBy),
      (∃ ob ∈ order, pathHitsRepeatedMapOrMissing env di ob.fieldPath.segments = true) →
      ∃ e, validateOrder env di order = .error e := by
  intro order
  induction order with
  | nil =>
    rintro ⟨ob, hmem, _⟩
    simp at hmem
  | cons ob rest ih =>
    rintro ⟨ob2, hmem, hbad⟩
    unfold validateOrder
    cases hv : validateFieldPath env di ob.fieldPath.segments with
    | error e => exact ⟨_, rfl⟩
    | ok u =>
      cases u
      rcases List.mem_cons.mp hmem with heq | hmem2
      · subst heq
        obtain ⟨e, he⟩ := validateFieldPath_rejects env _ di hbad
        rw [he] at hv
        cases hv
      · exact ih ⟨ob2, hmem2, hbad⟩

/-- Helper: compareValues never returns a Go error (only a result or a
panic). -/
lemma compareValues_no_err (a b : Option Pv) (e : String) :
    compareValues a b ≠ .err e := by
  cases a with
  | none => cases b <;> simp [compareValues]
  | some v =>
    cases b with
    | none => cases v <;> simp [compareValues]
    | some w => cases v <;> cases w <;> simp [compareValues]

/-- Helper: the error-absorbing resolution wrapper never returns a Go
error. -/
lemma resolveOrNil_no_err (r : GoResult Pv) (e : String) :
    resolveOrNil r ≠ .err e := by
  cases r <;> simp [resolveOrNil]

/-- Helper: a comparator closure never returns a Go error on any pair of
records (all its internal resolution errors are absorbed). -/
lemma comparerRun_no_err (env : Env) (di : Nat) :
    ∀ (order : List OrderBy) (a b : Pv) (e : String),
      comparerRun env di order a b ≠ .err e := by
  intro order
  induction order with
  | nil => intro a b e; simp [comparerRun]
  | cons ob rest ih =>
    intro a b e
    unfold comparerRun
    cases h1 : resolveOrNil (getFieldPathValue env di a ob.fieldPath.segments) with
    | err e1 => exact absurd h1 (resolveOrNil_no_err _ _)
    | panicked p => simp
    | ok av =>
      cases h2 : resolveOrNil (getFieldPathValue env di b ob.fieldPath.segments) with
      | err e2 => exact absurd h2 (resolveOrNil_no_err _ _)
      | panicked p => simp
      | ok bv =>
        cases h3 : compareValues av bv with
        | err e3 => exact absurd h3 (compareValues_no_err _ _ _)
        | panicked p => simp [h3]
        | ok cmp =>
          by_cases hz : cmp = 0
          · simpa [h3, hz] using ih a b e
          · by_cases hd : ob.descending = true <;> simp [h3, hz, hd]

/-- C8: every order specification containing a key whose proper walk passes
through or terminates at a repeated or map field, or references a
non-existent field, is rejected by Comparer, by both Less variants and by
CursorFilter with no closure returned; and a closure returned by Comparer
never produces such an error internally (its result is never a Go
error). -/
theorem c8_bad_sort_keys_rejected (env : Env) (di : Nat) (order : List OrderBy) (cursor : Pv)
    (h : ∃ ob ∈ order, pathHitsRepeatedMapOrMissing env di ob.fieldPath.segments = true) :
    (∃ e, Comparer env di order = .error e) ∧
    (∃ e, Less env di order = .error e) ∧
    (∃ e, LessInline env di order = .error e) ∧
    (∃ e, CursorFilter env di cursor order = .error e) ∧
    (∀ (env2 : Env) (di2 : Nat) (order2 : List OrderBy) (f : Pv → Pv → GoResult Int),
      Comparer env2 di2 order2 = .ok f → ∀ x y e2, f x y ≠ .err e2) := by
  obtain ⟨e, he⟩ := validateOrder_rejects env di order h
  refine ⟨⟨e, ?_⟩, ⟨e, ?_⟩, ⟨e, ?_⟩, ⟨e, ?_⟩, ?_⟩
  · simp [Comparer, he]
  · simp [Less, Comparer, he]
  · simp [LessInline, he]
  · simp [CursorFilter, Less, Comparer, he]
  · intro env2 di2 order2 f hf x y e2
    unfold Comparer at hf
    cases hv : validateOrder env2 di2 order2 with
    | error e3 => rw [hv] at hf; cases hf
    | ok u =>
      cases u
      rw [hv] at hf
      cases hf
      exact comparerRun_no_err env2 di2 order2 x y e2

/-- C8 witness: the theorem applied to the map field reviews as a sort key
on the Book schema. -/
theorem c8_witness :
    (∃ ob ∈ reviewsOrder, pathHitsRepeatedMapOrMissing bookEnv 0 ob.fieldPath.segments = true) ∧
    (∃ e, Comparer bookEnv 0 reviewsOrder = .error e) :=
  ⟨⟨⟨⟨["reviews"], "reviews"⟩, false⟩, by decide, by decide⟩,
    (c8_bad_sort_keys_rejected bookEnv 0 reviewsOrder bookZero
      ⟨⟨⟨["reviews"], "reviews"⟩, false⟩, by decide, by decide⟩).1⟩

/-- Helper: the inlined key-walk Less closure agrees pointwise with the
comparator-based one (the directional test in place equals the sign test
of the negated comparator result). -/
lemma lessInlineRun_eq_comparerRun (env : Env) (di : Nat) :
    ∀ (order : List OrderBy) (a b : Pv),
      lessInlineRun env di order a b =
        (match comparerRun env di order a b with
          | .ok n => .ok (decide (n < 0))
          | .err e => .err e
          | .panicked p => .panicked p) := by
  intro order
  induction order with
  | nil => intro a b; simp [lessInlineRun, comparerRun]
  | cons ob rest ih =>
    intro a b
    unfold lessInlineRun comparerRun
    cases h1 : resolveOrNil (getFieldPathValue env di a ob.fieldPath.segments) with
    | err e1 => simp
    | panicked p => simp
    | ok av =>
      cases h2 : resolveOrNil (getFieldPathValue env di b ob.fieldPath.segments) with
      | err e2 => simp
      | panicked p => simp
      | ok bv =>
        cases h3 : compareValues av bv with
        | err e3 => simp [h3]
        | panicked p => simp [h3]
        | ok cmp =>
          by_cases hz : cmp = 0
          · simpa [h3, hz] using ih a b
          · by_cases hd : ob.descending = true
            · simp only [h3, hz, hd, if_false, if_true]
              have : decide (cmp > 0) = decide (-cmp < 0) := by
                rw [decide_eq_decide]
                omega
              rw [this]
            · simp [h3, hz, hd]

/-- C10: the two Less implementations are equivalent: for every order and
message type they either both fail validation with the same error and
return no closure, or both return closures that agree on every pair of
records. -/
theorem c10_less_implementations_equivalent (env : Env) (di : Nat) (order : List OrderBy) :
    (∃ e, Less env di order = .error e ∧ LessInline env di order = .error e) ∨
    (∃ f g, Less env di order = .ok f ∧ LessInline env di order = .ok g ∧
      ∀ a b, f a b = g a b) := by
  unfold Less LessInline Comparer
  cases hv : validateOrder env di order with
  | error e => left; exact ⟨e, rfl, rfl⟩
  | ok u =>
    cases u
    right
    refine ⟨_, _, rfl, rfl, ?_⟩
    intro a b
    exact (lessInlineRun_eq_comparerRun env di order a b).symm

/-- The member authors.family_name. -/
def authorsMember : Member := Member.mk "authors" ["family_name"]

/-- The filter authors.family_name = lit as an AST. -/
def authorsEqFilter (lit : String) : Option Filter :=
  some (Filter.mk (some (.mk [.mk [.mk [.mk false
    (.restriction (Restriction.mk authorsMember "=" (some (Member.mk lit []))))]]])))

/-- The Book descriptor is entry 0 of the environment. -/
lemma envDescr_bookEnv_zero : envDescr bookEnv 0 = bookDescr := rfl

/-- The Author descriptor is entry 1 of the environment. -/
lemma envDescr_bookEnv_one : envDescr bookEnv 1 = authorDescr := rfl

/-- Helper: scatter resolution of authors.family_name yields exactly one
resolved family name per element of the repeated authors field. -/
lemma resolveListElems_authors (es : List (String × String)) :
    resolveListElems bookEnv 1 ["family_name"] (es.map (fun p => mkAuthor p.1 p.2)) =
      .ok (es.map (fun p => AnyV.aString p.2)) := by
  induction es with
  | nil => simp [resolveListElems]
  | cons p rest ih =>
    simp only [mkAuthor] at ih
    simp [resolveListElems, resolveMemberValueFromMessage, mkAuthor,
      envDescr_bookEnv_one, authorDescr, fieldByName, msgGet, pvToAny, ih]

/-- Helper: comparing a scattered list of strings for equality against a
string literal succeeds exactly when some element equals the literal. -/
lemma compareAnyLhsList_strings_eq (lit : String) (es : List (String × String)) :
    compareAnyLhsList (es.map (fun p => AnyV.aString p.2)) (.aString lit) "=" =
      .ok (es.any (fun p => p.2 == lit)) := by
  induction es with
  | nil => simp [compareAnyLhsList]
  | cons p rest ih =>
    by_cases hx : p.2 = lit
    · simp [compareAnyLhsList, compareAny, compareAnyScalar, asFloat64, hx]
    · have hb : (p.2 == lit) = false := beq_eq_false_iff_ne.mpr hx
      simp [compareAnyLhsList, compareAny, compareAnyScalar, asFloat64, hb, ih]

/-- Helper: the equality instance of scatter semantics: compiling
authors.family_name = lit succeeds on the Book schema whenever lit is not
itself a field name, the restriction path through the repeated authors
field resolves to one value per element (the family name of each element),
and the compiled predicate is true exactly when some element satisfies the
equality (string equality comparisons never error, so the any-match
reading holds on this instance). -/
theorem authorsEq_scatter_any_match (title nm : String) (author : Pv)
    (reviews items : List (Pv × Pv)) (es : List (String × String)) (lit : String)
    (hlit : fieldByName bookDescr lit = none) :
    ∃ f, ProtoFilter bookEnv 0 (authorsEqFilter lit) = .ok f ∧
      resolveMemberValue bookEnv 0
          (mkBook title nm author (es.map (fun p => mkAuthor p.1 p.2)) reviews items)
          authorsMember =
        .ok (.aList (es.map (fun p => AnyV.aString p.2))) ∧
      f (mkBook title nm author (es.map (fun p => mkAuthor p.1 p.2)) reviews items) =
        .ok (es.any (fun p => p.2 == lit)) := by
  have hres : resolveMemberValue bookEnv 0
      (mkBook title nm author (es.map (fun p => mkAuthor p.1 p.2)) reviews items)
      authorsMember = .ok (.aList (es.map (fun p => AnyV.aString p.2))) := by
    simp [resolveMemberValue, authorsMember, envDescr_bookEnv_zero, bookDescr,
      fieldByName, msgGet, mkBook, resolveListElems_authors]
  have harg : ∀ m : Pv, resolveMemberValue bookEnv 0 m (Member.mk lit []) =
      .ok (.aString lit) := by
    intro m
    simp [resolveMemberValue, envDescr_bookEnv_zero, hlit]
  have hcmp : compareAny (.aList (es.map (fun p => AnyV.aString p.2))) (.aString lit) "=" =
      .ok (es.any (fun p => p.2 == lit)) := by
    simp [compareAny, compareAnyLhsList_strings_eq]
  have hval : matchesFilter bookEnv 0 (zeroMsg bookEnv 0) (authorsEqFilter lit) =
      .ok false := by
    have hres0 : resolveMemberValue bookEnv 0 (zeroMsg bookEnv 0) authorsMember =
        .ok (.aList []) := by
      simp [resolveMemberValue, authorsMember, envDescr_bookEnv_zero, bookDescr,
        fieldByName, msgGet, zeroMsg, zeroField, resolveListElems]
    simp [matchesFilter, authorsEqFilter, evalExpression, evalSequencesLoop,
      evalSequence, evalFactorsLoop, evalFactor, evalTermsLoop, evalTerm, evalSimple,
      evalRestriction, hres0, harg, compareAny, compareAnyLhsList]
  have hrun : matchesFilter bookEnv 0
      (mkBook title nm author (es.map (fun p => mkAuthor p.1 p.2)) reviews items)
      (authorsEqFilter lit) = .ok (es.any (fun p => p.2 == lit)) := by
    cases hany : es.any (fun p => p.2 == lit) <;>
      simp [matchesFilter, authorsEqFilter, evalExpression, evalSequencesLoop,
        evalSequence, evalFactorsLoop, evalFactor, evalTermsLoop, evalTerm, evalSimple,
        evalRestriction, hres, harg, hcmp, hany]
  have hPF : ProtoFilter bookEnv 0 (authorsEqFilter lit) =
      (match matchesFilter bookEnv 0 (zeroMsg bookEnv 0) (authorsEqFilter lit) with
        | .err e => .err e
        | .panicked p => .panicked p
        | .ok _ => .ok (fun m => protoFilterClosureRun bookEnv 0 (authorsEqFilter lit) m)) := rfl
  refine ⟨fun m => protoFilterClosureRun bookEnv 0 (authorsEqFilter lit) m, ?_, hres, ?_⟩
  · rw [hPF, hval]
  · simp [protoFilterClosureRun, hrun]

/-- Helper: the scatter equality instance at the repository test record
with authors Hunt and Thomas and the filter authors.family_name =
Thomas. -/
theorem authorsEq_scatter_instance :
    fieldByName bookDescr "Thomas" = none ∧
    (∃ f, ProtoFilter bookEnv 0 (authorsEqFilter "Thomas") = .ok f ∧
      resolveMemberValue bookEnv 0
          (mkBook "The Pragmatic Programmer" "books/123" (mkAuthor "Andy" "Hunt")
            ([("Andy", "Hunt"), ("Dave", "Thomas")].map (fun p => mkAuthor p.1 p.2))
            [] [])
          authorsMember =
        .ok (.aList ([("Andy", "Hunt"), ("Dave", "Thomas")].map (fun p => AnyV.aString p.2))) ∧
      (∀ f2, f = f2 → f2 (mkBook "The Pragmatic Programmer" "books/123" (mkAuthor "Andy" "Hunt")
            ([("Andy", "Hunt"), ("Dave", "Thomas")].map (fun p => mkAuthor p.1 p.2))
            [] []) =
        .ok ([("Andy", "Hunt"), ("Dave", "Thomas")].any (fun p => p.2 == "Thomas")))) :=
  ⟨rfl, by
    obtain ⟨f, h1, h2, h3⟩ := authorsEq_scatter_any_match "The Pragmatic Programmer" "books/123"
      (mkAuthor "Andy" "Hunt") [] [] [("Andy", "Hunt"), ("Dave", "Thomas")] "Thomas" rfl
    exact ⟨f, h1, h2, fun f2 hf => hf ▸ h3⟩⟩

/-- The filter authors.family_name > lit as an AST. -/
def authorsGtFilter (lit : String) : Option Filter :=
  some (Filter.mk (some (.mk [.mk [.mk [.mk false
    (.restriction (Restriction.mk authorsMember ">" (some (Member.mk lit []))))]]])))

/-- A Book whose authors list holds an invalid (nil) element followed by
an author with family name Z. -/
def nilZBook : Pv := mkBook "" "" .pNoMsg [.pNoMsg, mkAuthor "" "Z"] [] []

/-- C7: the claim says the comparison of a restriction descending through
a repeated message field succeeds iff some element satisfies the operator,
but element comparisons are scanned left to right and an erroring element
aborts the scan: authors.family_name > M compiles, on a record whose
authors are an invalid element followed by family name Z the resolution
scatters to nil and Z, the element Z satisfies the operator, yet the
compiled predicate returns false (the nil element errors under the
ordering operator first), so the stated iff fails at this input. -/
theorem c7_counterexample :
    ∃ f, ProtoFilter bookEnv 0 (authorsGtFilter "M") = .ok f ∧
      resolveMemberValue bookEnv 0 nilZBook authorsMember =
        .ok (.aList [.aNil, .aString "Z"]) ∧
      compareAny (.aString "Z") (.aString "M") ">" = .ok true ∧
      f nilZBook = .ok false := by
  refine ⟨fun m => protoFilterClosureRun bookEnv 0 (authorsGtFilter "M") m, ?_, rfl, ?_, ?_⟩
  · simp [ProtoFilter, matchesFilter, authorsGtFilter, evalExpression,
      evalSequencesLoop, evalSequence, evalFactorsLoop, evalFactor, evalTermsLoop,
      evalTerm, evalSimple, evalRestriction, resolveMemberValue, authorsMember,
      bookEnv, bookDescr, authorDescr, envDescr, fieldByName, zeroMsg, zeroField,
      msgGet, resolveListElems, compareAny, compareAnyLhsList, compareAnyScalar,
      asFloat64]
  · simp [compareAny, compareAnyScalar, asFloat64, strLt, listCharLt, lowerChar]
  · simp [protoFilterClosureRun, matchesFilter, authorsGtFilter, evalExpression,
      evalSequencesLoop, evalSequence, evalFactorsLoop, evalFactor, evalTermsLoop,
      evalTerm, evalSimple, evalRestriction, resolveMemberValue,
      resolveMemberValueFromMessage, resolveListElems, authorsMember, bookEnv,
      bookDescr, authorDescr, envDescr, fieldByName, msgGet, zeroField, nilZBook,
      mkBook, mkAuthor, pvToAny, compareAny, compareAnyLhsList, compareAnyScalar,
      asFloat64]

/-- Helper: successful scatter resolution yields exactly one resolved
value per element of the repeated field. -/
lemma resolveListElems_length (env : Env) (j : Nat) (fields : List String) :
    ∀ (xs : List Pv) (vs : List AnyV),
      resolveListElems env j fields xs = .ok vs → vs.length = xs.length := by
  intro xs
  induction xs with
  | nil =>
    intro vs h
    simp only [resolveListElems, GoResult.ok.injEq] at h
    simp [← h]
  | cons e es ih =>
    intro vs h
    cases e
    case pNoMsg =>
      simp only [resolveListElems] at h
      cases ht : resolveListElems env j fields es with
      | err e2 => simp [ht] at h
      | panicked p => simp [ht] at h
      | ok t =>
        simp only [ht, GoResult.ok.injEq] at h
        subst h
        simp [ih t ht]
    case pMsg fs =>
      simp only [resolveListElems] at h
      cases hr : resolveMemberValueFromMessage env j (.pMsg fs) fields with
      | err e2 => simp [hr] at h
      | panicked p => simp [hr] at h
      | ok h0 =>
        simp only [hr] at h
        cases ht : resolveListElems env j fields es with
        | err e2 => simp [ht] at h
        | panicked p => simp [ht] at h
        | ok t =>
          simp only [ht, GoResult.ok.injEq] at h
          subst h
          simp [ih t ht]
    all_goals simp [resolveListElems] at h

/-- Helper: the element-wise comparison scan of a scattered list returns
true exactly when some element compares true and every element before it
compares false (an earlier element returning an error or a panic instead
aborts the scan). -/
lemma compareAnyLhsList_ok_true_iff (rhs : AnyV) (op : String) :
    ∀ (vs : List AnyV),
      compareAnyLhsList vs rhs op = .ok true ↔
        ∃ pre x post, vs = pre ++ x :: post ∧
          (∀ y ∈ pre, compareAny y rhs op = .ok false) ∧
          compareAny x rhs op = .ok true := by
  intro vs
  induction vs with
  | nil =>
    constructor
    · intro h
      simp [compareAnyLhsList] at h
    · rintro ⟨pre, x, post, heq, _, _⟩
      exact absurd heq (by simp)
  | cons a as ih =>
    constructor
    · intro h
      simp only [compareAnyLhsList] at h
      cases hc : compareAny a rhs op with
      | err e => simp [hc] at h
      | panicked p => simp [hc] at h
      | ok b =>
        cases b with
        | true => exact ⟨[], a, as, rfl, by simp, hc⟩
        | false =>
          simp only [hc] at h
          obtain ⟨pre, x, post, heq, hpre, hx⟩ := ih.mp h
          refine ⟨a :: pre, x, post, by simp [heq], ?_, hx⟩
          intro y hy
          rcases List.mem_cons.mp hy with h1 | h2
          · exact h1 ▸ hc
          · exact hpre y h2
    · rintro ⟨pre, x, post, heq, hpre, hx⟩
      cases pre with
      | nil =>
        simp only [List.nil_append] at heq
        injection heq with h1 h2
        subst h1
        simp [compareAnyLhsList, hx]
      | cons p ps =>
        simp only [List.cons_append] at heq
        injection heq with h1 h2
        have hp : compareAny a rhs op = .ok false :=
          h1 ▸ hpre p (List.mem_cons_self p ps)
        simp only [compareAnyLhsList, hp]
        exact ih.mpr ⟨ps, x, post, h2,
          fun y hy => hpre y (List.mem_cons_of_mem p hy), hx⟩

/-- C7 amended: resolution of a restriction path through a repeated
message field scatters into one resolved value per element (an invalid
element resolving to nil), the restriction compares the scattered list
element-wise against the resolved argument, and the comparison succeeds
iff some element satisfies the operator with every element before it
comparing false: an element whose comparison errors (such as a nil element
under an ordering operator) aborts the scan before later elements are
seen. -/
theorem c7_amended_scatter_first_decisive (env : Env) (di j idx : Nat) (fd : FieldDescr)
    (m : Pv) (mem argMem : Member) (xs : List Pv) (rhs : AnyV) (op : String)
    (vs : List AnyV)
    (hfd : fieldByName (envDescr env di) mem.value = some (idx, fd))
    (hcard : fd.card = Card.list) (hkind : fd.kind = Kind.kMsg j)
    (hfields : mem.fields.isEmpty = false)
    (hget : msgGet m idx fd = .pList xs)
    (hres : resolveListElems env j mem.fields xs = .ok vs)
    (hop : ¬ op = "")
    (harg : resolveMemberValue env di m argMem = .ok rhs) :
    resolveMemberValue env di m mem = .ok (.aList vs) ∧
    vs.length = xs.length ∧
    evalRestriction env di m (Restriction.mk mem op (some argMem)) =
      compareAnyLhsList vs rhs op ∧
    (compareAnyLhsList vs rhs op = .ok true ↔
      ∃ pre x post, vs = pre ++ x :: post ∧
        (∀ y ∈ pre, compareAny y rhs op = .ok false) ∧
        compareAny x rhs op = .ok true) := by
  have h1 : resolveMemberValue env di m mem = .ok (.aList vs) := by
    simp [resolveMemberValue, hfd, hcard, hkind, hfields, hget, hres]
  refine ⟨h1, resolveListElems_length env j mem.fields xs vs hres, ?_,
    compareAnyLhsList_ok_true_iff rhs op vs⟩
  simp [evalRestriction, hop, h1, harg, compareAny]

/-- The Book record with authors Hunt and Thomas of the repository tests,
reviews and items left empty. -/
def huntThomasBook : Pv :=
  mkBook "The Pragmatic Programmer" "books/123" (mkAuthor "Andy" "Hunt")
    [mkAuthor "Andy" "Hunt", mkAuthor "Dave" "Thomas"] [] []

/-- C7 amended witness: the amended theorem applied to the Book schema,
the path authors.family_name, the equality operator and the Hunt/Thomas
record, where the scan characterization instantiates to the any-match of
the repository test. -/
theorem c7_amended_witness :
    (¬ ("=" : String) = "") ∧
    (resolveMemberValue bookEnv 0 huntThomasBook authorsMember =
        .ok (.aList [.aString "Hunt", .aString "Thomas"]) ∧
      ([AnyV.aString "Hunt", AnyV.aString "Thomas"]).length =
        ([mkAuthor "Andy" "Hunt", mkAuthor "Dave" "Thomas"]).length ∧
      evalRestriction bookEnv 0 huntThomasBook
          (Restriction.mk authorsMember "=" (some (Member.mk "Thomas" []))) =
        compareAnyLhsList [.aString "Hunt", .aString "Thomas"] (.aString "Thomas") "=" ∧
      (compareAnyLhsList [.aString "Hunt", .aString "Thomas"] (.aString "Thomas") "=" =
          .ok true ↔
        ∃ pre x post,
          ([AnyV.aString "Hunt", AnyV.aString "Thomas"] : List AnyV) = pre ++ x :: post ∧
          (∀ y ∈ pre, compareAny y (.aString "Thomas") "=" = .ok false) ∧
          compareAny x (.aString "Thomas") "=" = .ok true)) :=
  ⟨by decide,
    c7_amended_scatter_first_decisive bookEnv 0 1 3
      { name := "authors", card := Card.list, kind := Kind.kMsg 1 }
      huntThomasBook authorsMember (Member.mk "Thomas" [])
      [mkAuthor "Andy" "Hunt", mkAuthor "Dave" "Thomas"] (.aString "Thomas") "="
      [.aString "Hunt", .aString "Thomas"]
      rfl rfl rfl rfl rfl rfl (by decide) rfl⟩

/-- Helper: on a path satisfying the spec validity invariant, copyFieldPath
produces exactly the spec-side write of the spec-side zero-defaulted
read. -/
lemma copyFieldPath_eq_write (env : Env) :
    ∀ (segs : List String) (di : Nat) (src dst : Pv),
      pathValidForSort env di segs = true →
      copyFieldPath env di src dst segs =
        .ok (writeFieldPath env di dst segs (readFieldPathZ env di src segs)) := by
  intro segs
  induction segs with
  | nil => intro di src dst _; simp [copyFieldPath, writeFieldPath]
  | cons s rest ih =>
    intro di src dst h
    unfold pathValidForSort at h
    unfold copyFieldPath writeFieldPath readFieldPathZ
    cases hf : fieldByName (envDescr env di) s with
    | none => rw [hf] at h; cases h
    | some p =>
      obtain ⟨idx, fd⟩ := p
      simp only [hf] at h
      simp only [hf]
      by_cases hrep : isRepeatedCardinality fd.card = true
      · rw [if_pos hrep] at h; cases h
      · rw [if_neg hrep] at h
        simp only [hrep, Bool.false_eq_true, if_false]
        cases hrest : rest.isEmpty with
        | true => simp [hrest]
        | false =>
          rw [hrest] at h
          simp only [hrest, Bool.false_eq_true, if_false]
          cases hk : fd.kind with
          | kMsg j =>
            rw [hk] at h
            simp only [hk]
            rw [ih j (msgGet src idx fd)
              (if msgHas dst idx fd then msgGet dst idx fd else zeroMsg env j) h]
          | kInt32 => rw [hk] at h; cases h
          | kInt64 => rw [hk] at h; cases h
          | kUInt32 => rw [hk] at h; cases h
          | kUInt64 => rw [hk] at h; cases h
          | kBool => rw [hk] at h; cases h
          | kString => rw [hk] at h; cases h

/-- Helper: the pruning loop of pruneMessage folds the spec-side projection
step over the order keys. -/
lemma pruneMessageGo_eq_fold (env : Env) (di : Nat) (R : Pv) :
    ∀ (order : List OrderBy) (acc : Pv),
      (∀ ob ∈ order, pathValidForSort env di ob.fieldPath.segments = true) →
      pruneMessage.go env di R order acc =
        .ok (order.foldl
          (fun a ob => writeFieldPath env di a ob.fieldPath.segments
            (readFieldPathZ env di R ob.fieldPath.segments)) acc) := by
  intro order
  induction order with
  | nil => intro acc _; simp [pruneMessage.go]
  | cons ob rest ih =>
    intro acc h
    unfold pruneMessage.go
    rw [copyFieldPath_eq_write env ob.fieldPath.segments di R acc (h ob (by simp))]
    exact ih _ (fun ob2 hm => h ob2 (by simp [hm]))

/-- Helper: pruning a record to a valid order is exactly the spec-side
projection onto the ordered field paths. -/
lemma pruneMessage_eq_project (env : Env) (di : Nat) (R : Pv) (order : List OrderBy)
    (h : orderValidForSort env di order = true) :
    pruneMessage env di R order = .ok (projectRecord env di R order) := by
  unfold pruneMessage projectRecord
  refine pruneMessageGo_eq_fold env di R order (zeroMsg env di) ?_
  intro ob hm
  simp only [orderValidForSort, List.all_eq_true] at h
  exact h ob hm

/-- C1: cursor round-trip: for every record and every order valid for its
type (the spec field-path invariant), assuming the serializer and base64
collaborators invert and the AEAD decrypts its own ciphertext under equal
associated data, NewCursor succeeds and DecodeCursor under the same order,
key and context returns exactly the record projected onto the ordered
field paths, all other fields left at their zero values. -/
theorem c1_cursor_round_trip {P C T : Type} (ser : SerModel P) (aead : AEADModel P C)
    (b64 : B64Model C T) (env : Env) (di : Nat) (R : Pv) (order : List OrderBy) (ctx : Bytes)
    (hser : ∀ m, ∃ w, ser.marshal m = .ok w ∧ ser.unmarshal w = .ok m)
    (haead : ∀ p a, ∃ c, aead.encrypt p a = .ok c ∧ aead.decrypt c a = .ok p)
    (hb64 : ∀ c, b64.decode (b64.encode c) = .ok c)
    (hord : orderValidForSort env di order = true) :
    ∃ tok, NewCursor ser aead b64 env di R order ctx = .ok tok ∧
      DecodeCursor ser aead b64 tok order ctx = .ok (projectRecord env di R order) := by
  obtain ⟨w, hm, hu⟩ := hser (projectRecord env di R order)
  obtain ⟨c, he, hd⟩ := haead w (ctx ++ 0 :: serializeOrderByText order)
  refine ⟨b64.encode c, ?_, ?_⟩
  · simp [NewCursor, pruneMessage_eq_project env di R order hord, hm, he]
  · simp [DecodeCursor, hb64 c, hd, hu]

/-- A toy serializer for witnesses: the wire value is the message itself. -/
def idSer : SerModel Pv := ⟨fun m => .ok m, fun m => .ok m⟩

/-- A toy AEAD for witnesses: the ciphertext records the associated data
with the plaintext and decryption checks the associated data. -/
def pairAead : AEADModel Pv (Bytes × Pv) :=
  ⟨fun p a => .ok (a, p),
   fun c a => if c.1 = a then .ok c.2 else .error "authentication failure"⟩

/-- A toy base64 for witnesses: the identity. -/
def idB64 : B64Model (Bytes × Pv) (Bytes × Pv) := ⟨id, .ok⟩

/-- C1 witness: the round-trip theorem applied to the Dune-style book and
the order title with the toy collaborators. -/
theorem c1_witness :
    orderValidForSort bookEnv 0 titleAscOrder = true ∧
    (∃ tok, NewCursor idSer pairAead idB64 bookEnv 0 pragBook titleAscOrder
        (strBytes "ctx") = .ok tok ∧
      DecodeCursor idSer pairAead idB64 tok titleAscOrder (strBytes "ctx") =
        .ok (projectRecord bookEnv 0 pragBook titleAscOrder)) :=
  ⟨by decide,
    c1_cursor_round_trip idSer pairAead idB64 bookEnv 0 pragBook titleAscOrder
      (strBytes "ctx") (fun m => ⟨m, rfl, rfl⟩)
      (fun p a => ⟨(a, p), rfl, by simp [pairAead]⟩) (fun c => rfl) (by decide)⟩

/-- Helper: a list followed by a zero marker and a zero-free tail splits
uniquely at the marker. -/
lemma nulSepInj : ∀ (u u2 v v2 : List Nat), 0 ∉ u → 0 ∉ u2 →
    u ++ 0 :: v = u2 ++ 0 :: v2 → u = u2 ∧ v = v2 := by
  intro u
  induction u with
  | nil =>
    intro u2 v v2 _ hu2 h
    cases u2 with
    | nil =>
      simp only [List.nil_append, List.cons.injEq] at h
      exact ⟨rfl, h.2⟩
    | cons x xs =>
      simp only [List.nil_append, List.cons_append, List.cons.injEq] at h
      exact absurd (h.1 ▸ List.mem_cons_self x xs) hu2
  | cons x xs ih =>
    intro u2 v v2 hu hu2 h
    cases u2 with
    | nil =>
      simp only [List.cons_append, List.nil_append, List.cons.injEq] at h
      exact absurd (h.1 ▸ List.mem_cons_self x xs) hu
    | cons y ys =>
      simp only [List.cons_append, List.cons.injEq] at h
      have hxs : 0 ∉ xs := fun hm => hu (List.mem_cons_of_mem x hm)
      have hys : 0 ∉ ys := fun hm => hu2 (List.mem_cons_of_mem y hm)
      obtain ⟨h1, h2⟩ := ih ys v v2 hxs hys h.2
      exact ⟨by rw [h.1, h1], h2⟩

/-- Helper: the associated data layout context, zero byte, order text
determines the context and the order text uniquely as long as the order
texts are free of zero bytes. -/
lemma aadBytesInjective (ctx ctx2 s s2 : Bytes) (hs : 0 ∉ s) (hs2 : 0 ∉ s2)
    (h : ctx2 ++ 0 :: s2 = ctx ++ 0 :: s) : ctx2 = ctx ∧ s2 = s := by
  have hr := congrArg List.reverse h
  simp only [List.reverse_append, List.reverse_cons, List.append_assoc,
    List.singleton_append] at hr
  have hs2r : 0 ∉ s2.reverse := by simpa using hs2
  have hsr : 0 ∉ s.reverse := by simpa using hs
  obtain ⟨h1, h2⟩ := nulSepInj s2.reverse s.reverse ctx2.reverse ctx.reverse hs2r hsr hr
  constructor
  · rw [← List.reverse_reverse ctx2, h2, List.reverse_reverse]
  · rw [← List.reverse_reverse s2, h1, List.reverse_reverse]

/-- C2: order binding: a token created under order O, key k and context
ctx fails to decode, with an error wrapping ErrInvalidPageToken, under any
order whose canonical serialized text differs or any different context
(the serialized order texts contain no zero byte, as the canonical texts
of parsed order-by strings are identifier paths), assuming the AEAD
rejects decryption under any associated data other than the one it
encrypted with. -/
theorem c2_order_binding {P C T : Type} (ser : SerModel P) (aead : AEADModel P C)
    (b64 : B64Model C T) (env : Env) (di : Nat) (R : Pv)
    (o o2 : List OrderBy) (ctx ctx2 : Bytes) (tok : T)
    (hrej : ∀ (p : P) (a : Bytes) (c : C), aead.encrypt p a = .ok c →
      ∀ a2, a2 ≠ a → ∃ e, aead.decrypt c a2 = .error e)
    (hb64 : ∀ c, b64.decode (b64.encode c) = .ok c)
    (hn : 0 ∉ serializeOrderByText o) (hn2 : 0 ∉ serializeOrderByText o2)
    (hdiff : serializeOrderByText o2 ≠ serializeOrderByText o ∨ ctx2 ≠ ctx)
    (htok : NewCursor ser aead b64 env di R o ctx = .ok tok) :
    ∃ cause, DecodeCursor ser aead b64 tok o2 ctx2 =
      .error (.invalidPageToken cause) := by
  unfold NewCursor at htok
  cases hp : pruneMessage env di R o with
  | error e => simp only [hp] at htok; cases htok
  | ok pruned =>
    simp only [hp] at htok
    cases hm : ser.marshal pruned with
    | error e => simp only [hm] at htok; cases htok
    | ok raw =>
      simp only [hm] at htok
      cases he : aead.encrypt raw (ctx ++ [0] ++ serializeOrderByText o) with
      | error e => simp only [he] at htok; cases htok
      | ok c =>
        simp only [he, Except.ok.injEq] at htok
        subst htok
        have hne : (ctx2 ++ [0] ++ serializeOrderByText o2) ≠
            (ctx ++ [0] ++ serializeOrderByText o) := by
          intro hEq
          simp only [List.append_assoc, List.singleton_append] at hEq
          obtain ⟨hc, hs⟩ := aadBytesInjective ctx ctx2 (serializeOrderByText o)
            (serializeOrderByText o2) hn hn2 hEq
          rcases hdiff with hd | hd
          · exact hd hs
          · exact hd hc
        obtain ⟨e, hdec⟩ := hrej raw _ c he _ hne
        refine ⟨.authFailure, ?_⟩
        unfold DecodeCursor
        rw [hb64 c]
        simp only [List.append_assoc, List.singleton_append] at hdec
        simp [hdec]

/-- The concrete token of the C2 witness: the toy AEAD ciphertext of the
title-pruned book under the ctx, zero, title:asc associated data. -/
def c2tok : Bytes × Pv :=
  (strBytes "ctx" ++ [0] ++ serializeOrderByText titleAscOrder,
    mkBook "The Pragmatic Programmer" "" .pNoMsg [] [] [])

/-- C2 witness: the order-binding theorem applied to a token created under
order title and decoded under order title desc, sharing the prefix title,
with the toy collaborators. -/
theorem c2_witness :
    NewCursor idSer pairAead idB64 bookEnv 0 pragBook titleAscOrder
      (strBytes "ctx") = .ok c2tok ∧
    (∃ cause, DecodeCursor idSer pairAead idB64 c2tok titleDescOrder (strBytes "ctx") =
      .error (.invalidPageToken cause)) :=
  ⟨rfl,
    c2_order_binding idSer pairAead idB64 bookEnv 0 pragBook titleAscOrder titleDescOrder
      (strBytes "ctx") (strBytes "ctx") c2tok
      (fun p a c henc a2 hne => by
        cases henc
        exact ⟨"authentication failure", by
          simp only [pairAead]
          rw [if_neg (fun hh => hne hh.symm)]⟩)
      (fun c => rfl) (by decide) (by decide) (Or.inl (by decide)) rfl⟩

/-- A schema with a message-valued map field: title string and rev, a map
from string to Author. -/
def msgMapDescr : MessageDescr :=
  [ { name := "title", card := .singular, kind := .kString },
    { name := "rev", card := .mapped .kString, kind := .kMsg 1 } ]

/-- The environment of the message-valued-map schema. -/
def msgMapEnv : Env := [msgMapDescr, authorDescr]

/-- A record of the message-valued-map schema whose only occurrence of the
word classic sits inside a message stored as a map value. -/
def msgMapBook : Pv :=
  .pMsg [.pString "t", .pMap [(.pString "k", mkAuthor "classic advice" "")]]

/-- Helper bundle: the searchMessageStrings family computes exactly the
any-lowered-substring test over the amended reachable-string collection,
proved by strong induction on a size measure covering the whole mutual
recursion (the hypothesis that the term is lowering-fixed reflects that
the term was already lowered at entry). -/
lemma search_eq_reach_bundle : ∀ (n : Nat),
    (∀ (env : Env) (di : Nat) (m : Pv) (t : String), 4 * sizeOf m ≤ n → strLower t = t →
      searchMessageStrings env di m t =
        (reachableStrings env di m).any (fun s => strContainsSubstr (strLower s) t)) ∧
    (∀ (env : Env) (fds : List FieldDescr) (vals : List Pv) (t : String),
      4 * sizeOf vals + 3 ≤ n → strLower t = t →
      searchFieldsLoop env fds vals t =
        (reachFields env fds vals).any (fun s => strContainsSubstr (strLower s) t)) ∧
    (∀ (env : Env) (fd : FieldDescr) (v : Pv) (t : String),
      4 * sizeOf v + 2 ≤ n → strLower t = t →
      searchOneField env fd v t =
        (reachField env fd v).any (fun s => strContainsSubstr (strLower s) t)) ∧
    (∀ (env : Env) (fd : FieldDescr) (xs : List Pv) (t : String),
      4 * sizeOf xs + 3 ≤ n → strLower t = t →
      searchListLoop env fd xs t =
        (reachElems env fd xs).any (fun s => strContainsSubstr (strLower s) t)) ∧
    (∀ (env : Env) (kfd vfd : FieldDescr) (es : List (Pv × Pv)) (t : String),
      4 * sizeOf es + 3 ≤ n → strLower t = t →
      searchMapLoop env kfd vfd es t =
        (reachEntries env kfd vfd es).any (fun s => strContainsSubstr (strLower s) t)) ∧
    (∀ (env : Env) (fd : FieldDescr) (v : Pv) (t : String),
      4 * sizeOf v + 1 ≤ n → strLower t = t →
      fieldContains env fd v t =
        (reachValue env fd v).any (fun s => strContainsSubstr (strLower s) t)) := by
  intro n
  induction n using Nat.strong_induction_on with
  | _ n ih =>
    refine ⟨?_, ?_, ?_, ?_, ?_, ?_⟩
    · intro env di m t hb ht
      cases m
      case pMsg vals =>
        simp only [searchMessageStrings, reachableStrings, ht]
        simp only [Pv.pMsg.sizeOf_spec] at hb
        exact (ih (n - 1) (by omega)).2.1 env (envDescr env di) vals t (by omega) ht
      all_goals simp [searchMessageStrings, reachableStrings]
    · intro env fds vals t hb ht
      cases fds with
      | nil => simp [searchFieldsLoop, reachFields]
      | cons fd fds2 =>
        cases vals with
        | nil => simp [searchFieldsLoop, reachFields]
        | cons v vs =>
          simp only [searchFieldsLoop, reachFields]
          simp only [List.cons.sizeOf_spec] at hb
          rw [(ih (n - 1) (by omega)).2.2.1 env fd v t (by omega) ht]
          rw [(ih (n - 1) (by omega)).2.1 env fds2 vs t (by omega) ht]
          simp [List.any_append]
    · intro env fd v t hb ht
      cases hcard : fd.card with
      | list =>
        cases v
        case pList xs =>
          simp only [searchOneField, reachField, hcard]
          simp only [Pv.pList.sizeOf_spec] at hb
          exact (ih (n - 1) (by omega)).2.2.2.1 env fd xs t (by omega) ht
        all_goals simp [searchOneField, reachField, hcard]
      | mapped kk =>
        cases v
        case pMap es =>
          rw [searchOneField.eq_def, reachField.eq_def, hcard]
          simp only [Pv.pMap.sizeOf_spec] at hb
          exact (ih (n - 1) (by omega)).2.2.2.2.1 env (mapKeyFd kk) (mapValFd fd) es t
            (by omega) ht
        all_goals simp [searchOneField, reachField, hcard]
      | singular =>
        cases v <;>
          (simp only [searchOneField, reachField, hcard]
           exact (ih (n - 1) (by omega)).2.2.2.2.2 env fd _ t (by omega) ht)
    · intro env fd xs t hb ht
      cases xs with
      | nil => simp [searchListLoop, reachElems]
      | cons x rest =>
        simp only [searchListLoop, reachElems]
        simp only [List.cons.sizeOf_spec] at hb
        rw [(ih (n - 1) (by omega)).2.2.2.2.2 env fd x t (by omega) ht]
        rw [(ih (n - 1) (by omega)).2.2.2.1 env fd rest t (by omega) ht]
        simp [List.any_append]
    · intro env kfd vfd es t hb ht
      cases es with
      | nil => simp [searchMapLoop, reachEntries]
      | cons e rest =>
        obtain ⟨k, v⟩ := e
        simp only [searchMapLoop, reachEntries]
        simp only [List.cons.sizeOf_spec, Prod.mk.sizeOf_spec] at hb
        rw [(ih (n - 1) (by omega)).2.2.2.2.2 env kfd k t (by omega) ht]
        rw [(ih (n - 1) (by omega)).2.2.2.2.2 env vfd v t (by omega) ht]
        rw [(ih (n - 1) (by omega)).2.2.2.2.1 env kfd vfd rest t (by omega) ht]
        simp [List.any_append, Bool.or_assoc]
    · intro env fd v t hb ht
      cases hk : fd.kind with
      | kString => simp [fieldContains, reachValue, hk]
      | kMsg j =>
        cases v
        case pMsg fs =>
          simp only [fieldContains, reachValue, hk]
          simp only [Pv.pMsg.sizeOf_spec] at hb
          exact (ih (n - 1) (by omega)).1 env j (.pMsg fs) t (by simp; omega) ht
        all_goals simp [fieldContains, reachValue, hk]
      | kInt32 => simp [fieldContains, reachValue, hk]
      | kInt64 => simp [fieldContains, reachValue, hk]
      | kUInt32 => simp [fieldContains, reachValue, hk]
      | kUInt64 => simp [fieldContains, reachValue, hk]
      | kBool => simp [fieldContains, reachValue, hk]

/-- Helper: the global search equals the any-lowered-substring test over
the amended reachable strings, for a term whose lowering is a fixed point
of lowering (true of every term, lowering being idempotent). -/
lemma searchMessageStrings_eq_reachable (env : Env) (di : Nat) (m : Pv) (t : String)
    (ht : strLower (strLower t) = strLower t) :
    searchMessageStrings env di m t =
      (reachableStrings env di m).any
        (fun s => strContainsSubstr (strLower s) (strLower t)) := by
  cases m
  case pMsg vals =>
    simp only [searchMessageStrings, reachableStrings]
    exact (search_eq_reach_bundle (4 * sizeOf vals + 3)).2.1 env (envDescr env di) vals
      (strLower t) (by omega) ht
  all_goals simp [searchMessageStrings, reachableStrings]

/-- Helper: a bare-term filter evaluates without error on every record, to
the result of the global string search. -/
lemma matchesFilter_globalFilter (env : Env) (di : Nat) (m : Pv) (t : String) :
    matchesFilter env di m (globalFilter t) = .ok (searchMessageStrings env di m t) := by
  cases hs : searchMessageStrings env di m t <;>
    simp [matchesFilter, globalFilter, evalExpression, evalSequencesLoop,
      evalSequence, evalFactorsLoop, evalFactor, evalTermsLoop, evalTerm,
      evalSimple, evalRestriction, hs]

/-- Helper: a bare-term filter always compiles (validation against the
zero instance cannot fail), yielding the standard evaluation closure. -/
lemma ProtoFilter_globalFilter (env : Env) (di : Nat) (t : String) :
    ProtoFilter env di (globalFilter t) =
      .ok (fun m => protoFilterClosureRun env di (globalFilter t) m) := by
  have hPF : ProtoFilter env di (globalFilter t) =
      (match matchesFilter env di (zeroMsg env di) (globalFilter t) with
        | .err e => .err e
        | .panicked p => .panicked p
        | .ok _ => .ok (fun m => protoFilterClosureRun env di (globalFilter t) m)) := rfl
  rw [hPF, matchesFilter_globalFilter]

/-- Helper: the compiled closure of a bare-term filter returns exactly the
global string search result on every record. -/
lemma protoFilterClosureRun_globalFilter (env : Env) (di : Nat) (t : String) (m : Pv) :
    protoFilterClosureRun env di (globalFilter t) m =
      .ok (searchMessageStrings env di m t) := by
  unfold protoFilterClosureRun
  rw [matchesFilter_globalFilter]

/-- Helper: the global search for classic succeeds on the record whose
only occurrence of classic sits inside a message-typed map value. -/
lemma search_msgMap : searchMessageStrings msgMapEnv 0 msgMapBook "classic" = true := by
  rw [searchMessageStrings_eq_reachable msgMapEnv 0 msgMapBook "classic" (by decide)]
  simp [reachableStrings, reachFields, reachField, reachElems, reachEntries,
    reachValue, msgMapEnv, msgMapDescr, authorDescr, envDescr, msgMapBook,
    mkAuthor, pvString, mapKeyFd, mapValFd]
  decide

/-- C9: the claim restricts map-field contributions to string-typed keys
and values, but fieldContains recurses into message-typed map values: on a
schema with a map from string to Author, the compiled global filter for
classic matches a record whose only occurrence of classic is inside a
message stored as a map value, while the claim reading of the reachable
strings (string-typed keys and values only) contains no such string, so
the stated iff is false at this input. -/
theorem c9_counterexample :
    (∃ f, ProtoFilter msgMapEnv 0 (globalFilter "classic") = .ok f ∧
      f msgMapBook = .ok true) ∧
    ((reachableStringsClaim msgMapEnv 0 msgMapBook).any
      (fun s => strContainsSubstr (strLower s) (strLower "classic")) = false) := by
  constructor
  · refine ⟨fun m2 => protoFilterClosureRun msgMapEnv 0 (globalFilter "classic") m2,
      ProtoFilter_globalFilter msgMapEnv 0 "classic", ?_⟩
    show protoFilterClosureRun msgMapEnv 0 (globalFilter "classic") msgMapBook = .ok true
    rw [protoFilterClosureRun_globalFilter, search_msgMap]
  · simp [reachableStringsClaim, reachFieldsClaim, reachFieldClaim, reachElemsClaim,
      reachValueClaim, stringOnly, msgMapEnv, msgMapDescr, authorDescr, envDescr,
      msgMapBook, mkAuthor, pvString, mapKeyFd, mapValFd]
    decide

/-- C9 amended: a filter consisting of one bare term always compiles, and
the compiled predicate returns true iff the term occurs case-insensitively
as a substring of some string reachable from the record: through singular
message fields recursively, through every element of repeated fields, and
through keys and values of map fields, where string-typed keys and values
are matched directly and message-typed map values are searched
recursively. -/
theorem c9_amended_global_search (env : Env) (di : Nat) (m : Pv) (t : String)
    (ht : strLower (strLower t) = strLower t) :
    ∃ f, ProtoFilter env di (globalFilter t) = .ok f ∧
      f m = .ok ((reachableStrings env di m).any
        (fun s => strContainsSubstr (strLower s) (strLower t))) := by
  have heval : ∀ m2 : Pv, matchesFilter env di m2 (globalFilter t) =
      .ok (searchMessageStrings env di m2 t) := by
    intro m2
    cases hs2 : searchMessageStrings env di m2 t <;>
      simp [matchesFilter, globalFilter, evalExpression, evalSequencesLoop,
        evalSequence, evalFactorsLoop, evalFactor, evalTermsLoop, evalTerm,
        evalSimple, evalRestriction, hs2]
  have hPF : ProtoFilter env di (globalFilter t) =
      (match matchesFilter env di (zeroMsg env di) (globalFilter t) with
        | .err e => .err e
        | .panicked p => .panicked p
        | .ok _ => .ok (fun m2 => protoFilterClosureRun env di (globalFilter t) m2)) := rfl
  refine ⟨fun m2 => protoFilterClosureRun env di (globalFilter t) m2, ?_, ?_⟩
  · rw [hPF, heval (zeroMsg env di)]
  · rw [show (fun m2 => protoFilterClosureRun env di (globalFilter t) m2) m =
        protoFilterClosureRun env di (globalFilter t) m from rfl]
    unfold protoFilterClosureRun
    rw [heval m, searchMessageStrings_eq_reachable env di m t ht]

/-- C9 amended witness: the amended theorem applied to the
message-valued-map record and the term classic. -/
theorem c9_amended_witness :
    strLower (strLower "classic") = strLower "classic" ∧
    (∃ f, ProtoFilter msgMapEnv 0 (globalFilter "classic") = .ok f ∧
      f msgMapBook = .ok ((reachableStrings msgMapEnv 0 msgMapBook).any
        (fun s => strContainsSubstr (strLower s) (strLower "classic")))) :=
  ⟨by decide, c9_amended_global_search msgMapEnv 0 msgMapBook "classic" (by decide)⟩

end Aip
